import Mathlib

/-!
# Verification of the `swisstable` map (Go) against its specification

This file gives a shallow embedding, in Lean 4, of the core of the
`swisstable` repository: a Swiss-table style hash map with 16-slot groups,
SIMD-style byte matching (`MatchByte`), quadratic probing across groups by
triangular numbers, and incremental growth that keeps an immutable old
table alive during a resize.

Machine integers are modelled as `Nat` (with masking exactly where the Go
code masks; the Go code always masks the low bits of `uint64` sums right
after adding, so `Nat` arithmetic agrees with `uint64` arithmetic on every
value the code observes).  Keys and values (`int64` in Go) are modelled as
`Int`; control bytes are `Nat` values below 256.

Go loops without a structural bound are embedded as fuel-indexed functions
returning `Option`; `none` models divergence (or a `debug` panic, which is
compiled out in the source since `debug = false`).
-/

namespace Swisstable

/-- Go `Key`/`Value` pair (`type KV struct { Key Key; Value Value }`). -/
structure KV where
  key : Int
  value : Int
  deriving DecidableEq, Repr

/-- Control byte sentinel `emptySentinel = 0b1111_1111`. -/
def emptySentinel : Nat := 0xff

/-- Control byte sentinel `deletedSentinel = 0b1000_0000`. -/
def deletedSentinel : Nat := 0x80

/-- `isStored` from map.go: a control byte marks a stored slot iff its
high bit is clear. -/
def isStored (controlByte : Nat) : Bool :=
  controlByte &&& (1 <<< 7) == 0

/-!
## The `MatchByte` SIMD primitive (match_amd64.s)

The amd64 assembly broadcasts the byte `c` (PSHUFB), compares it with the
first 16 bytes of `buffer` (PCMPEQB) and collapses the per-byte results
into a 16-bit mask (PMOVMSKB), so bit `i` of the mask is set exactly when
`buffer[i] == c`.  A buffer shorter than 16 bytes returns `(0, false)`.
-/

/-- The mask computed by the PCMPEQB/PMOVMSKB sequence over the first
`n` bytes of `buffer`, little-endian: bit `i` is set iff byte `i` equals
`c`. -/
def matchMask (c : Nat) : Nat → List Nat → Nat
  | 0, _ => 0
  | _ + 1, [] => 0
  | n + 1, b :: rest => (if b = c then 1 else 0) + 2 * matchMask c n rest

/-- `MatchByte` from match_amd64.s: 16-wide byte match returning the match
mask and an `ok` flag that is `false` when the buffer is shorter than 16
bytes. -/
def MatchByte (c : Nat) (buffer : List Nat) : Nat × Bool :=
  if buffer.length < 16 then (0, false)
  else (matchMask c 16 buffer, true)

theorem matchMask_lt (c : Nat) : ∀ (n : Nat) (l : List Nat), matchMask c n l < 2 ^ n := by
  intro n
  induction n with
  | zero => intro l; simp [matchMask]
  | succ n ih =>
    intro l
    cases l with
    | nil => simp [matchMask]
    | cons b rest =>
      have h := ih rest
      simp only [matchMask]
      have : (if b = c then 1 else 0) ≤ 1 := by split <;> omega
      have hp : 2 ^ (n + 1) = 2 * 2 ^ n := by ring
      omega

theorem matchMask_testBit (c : Nat) :
    ∀ (n : Nat) (l : List Nat) (i : Nat), i < n →
      (matchMask c n l).testBit i = (l.get? i = some c) := by
  intro n
  induction n with
  | zero => intro l i hi; omega
  | succ n ih =>
    intro l i hi
    cases l with
    | nil =>
      simp [matchMask, Nat.zero_testBit, List.get?]
    | cons b rest =>
      cases i with
      | zero =>
        simp only [matchMask, List.get?]
        rw [Nat.testBit_zero]
        split <;> simp_all
      | succ i =>
        simp only [matchMask, List.get?]
        rw [show (if b = c then 1 else 0) + 2 * matchMask c n rest
              = 2 * matchMask c n rest + (if b = c then 1 else 0) by ring]
        rw [Nat.testBit_succ]
        · have hb : (if b = c then 1 else 0) < 2 := by split <;> omega
          have h2 : (2 * matchMask c n rest + (if b = c then 1 else 0)) / 2
              = matchMask c n rest := by omega
          rw [h2]
          exact ih rest i (by omega)

theorem matchMask_testBit_ge (c : Nat) (n : Nat) (l : List Nat) (i : Nat) (h : n ≤ i) :
    (matchMask c n l).testBit i = false := by
  apply Nat.testBit_lt_two_pow
  exact lt_of_lt_of_le (matchMask_lt c n l) (Nat.pow_le_pow_right (by omega) h)

/-!
## The `fixedTable` type (map.go)
-/

/-- `fixedTable` from map.go: a non-resizable Swiss table.  `control` and
`slots` have the same power-of-two length `T`; there are `T/16` groups of
16 slots each. -/
structure fixedTable where
  control : List Nat
  slots : List KV
  groupMask : Nat
  h2Shift : Nat
  deleteCount : Int
  deriving DecidableEq, Repr

/-- `fixedTable.h2`: the 7 hash bits immediately above the group-selector
bits (`uint8((h >> h2Shift) & 0x7f)` in the source). -/
def fixedTable.h2 (t : fixedTable) (h : Nat) : Nat :=
  (h >>> t.h2Shift) &&& 0x7f

/-- `fixedTable.reconstructHash`: rebuild the low `h2Shift + 7` hash bits
from a STORED control byte and the group it sits in
(`group | ((uint64(controlByte) & 0x7F) << h2Shift)` in the source). -/
def fixedTable.reconstructHash (t : fixedTable) (controlByte : Nat) (group : Nat) : Nat :=
  group ||| ((controlByte &&& 0x7F) <<< t.h2Shift)

/-- The 16 control bytes of the group starting at byte offset
`group * 16`, i.e. the Go slice expression `t.control[group*16:]` that is
passed to `MatchByte` (whose assembly reads only the first 16 bytes). -/
def ctrlFrom (t : fixedTable) (group : Nat) : List Nat :=
  t.control.drop (group * 16)

/-- `matchEmpty` from map.go (mask of EMPTY bytes in a 16-byte window). -/
def matchEmpty (controlBytes : List Nat) : Nat :=
  (MatchByte emptySentinel controlBytes).1

/-- `matchEmptyOrDeleted` from map.go. -/
def matchEmptyOrDeleted (controlBytes : List Nat) : Nat :=
  (MatchByte emptySentinel controlBytes).1 |||
    (MatchByte deletedSentinel controlBytes).1

/-- 64-bit trailing-zero count (`bits.TrailingZeros` on a 64-bit `uint`),
used by `newFixedTable` to derive `h2Shift` from the group count. -/
def trailingZerosAux : Nat → Nat → Nat
  | 0, _ => 64
  | fuel + 1, n => if n.testBit 0 then 0 else 1 + trailingZerosAux fuel (n / 2)

def trailingZeros (n : Nat) : Nat := trailingZerosAux 64 n

/-- `newFixedTable` from map.go.  The Go code panics when `tableSize` is
zero or not a power of two; we model the panic as `none`. -/
def newFixedTable (tableSize : Nat) : Option fixedTable :=
  if tableSize &&& (tableSize - 1) ≠ 0 ∨ tableSize = 0 then none
  else some
    { control := List.replicate tableSize emptySentinel
      slots := List.replicate tableSize ⟨0, 0⟩
      groupMask := tableSize / 16 - 1
      h2Shift := trailingZeros (tableSize / 16)
      deleteCount := 0 }

/-- The `pow2` loop of `calcTableSize` (`for tableSize > pow2 { pow2 <<= 1 }`),
with enough fuel to run the Go loop to completion. -/
def pow2Loop : Nat → Int → Int → Int
  | 0, _, pow2 => pow2
  | fuel + 1, t, pow2 => if t > pow2 then pow2Loop fuel t (pow2 * 2) else pow2

/-- `calcTableSize` from map.go: `int(float64(capacityHint) / (6.5 / 8))`
rounded up to a power of two, with a floor of 16.  `6.5 / 8 = 0.8125` is
exact in binary floating point and the quotient is never within a rounding
error of an integer unless it is one, so the float division followed by
`int` truncation equals truncating integer division by `13/16`. -/
def calcTableSize (capacityHint : Int) : Nat :=
  let tableSize : Int := Int.tdiv (capacityHint * 16) 13
  (pow2Loop tableSize.toNat tableSize 16).toNat

/-!
## Quadratic probing by triangular numbers

`find`, `set` and `findFirstEmptyOrDeleted` all advance across groups with
`probeCount++; group = (group + probeCount) & groupMask`, which visits the
groups `(start + triangle i) & groupMask` for `i = 0, 1, 2, …`.
-/

/-- The i-th triangular number `0, 1, 3, 6, …`. -/
def triangle (n : Nat) : Nat := n * (n + 1) / 2

/-- The group visited by the i-th probe step starting from `g0`. -/
def probeGroup (g0 mask i : Nat) : Nat := (g0 + triangle i) &&& mask

theorem land_two_pow_sub_one (x k : Nat) : x &&& (2 ^ k - 1) = x % 2 ^ k := by
  apply Nat.eq_of_testBit_eq
  intro i
  rw [Nat.testBit_land, Nat.testBit_two_pow_sub_one, Nat.testBit_mod_two_pow]
  cases h : Nat.testBit x i <;> simp [h]

theorem two_mul_triangle (n : Nat) : 2 * triangle n = n * (n + 1) := by
  obtain ⟨c, hc⟩ : ∃ c, n * (n + 1) = 2 * c := by
    rcases Nat.even_or_odd n with ⟨m, hm⟩ | ⟨m, hm⟩
    · exact ⟨m * (n + 1), by subst hm; ring⟩
    · exact ⟨n * (m + 1), by subst hm; ring⟩
  unfold triangle
  omega

theorem triangle_succ (n : Nat) : triangle (n + 1) = triangle n + (n + 1) := by
  have h1 := two_mul_triangle n
  have h2 := two_mul_triangle (n + 1)
  have h3 : (n + 1) * (n + 1 + 1) = n * (n + 1) + 2 * (n + 1) := by ring
  omega

/-- The code's incremental step law: starting from a group already reduced
mod the (power-of-two) group count, adding `probeCount` and masking lands
on the next triangular-probe group. -/
theorem probeGroup_step (g0 k i : Nat) :
    probeGroup g0 (2 ^ k - 1) (i + 1)
      = (probeGroup g0 (2 ^ k - 1) i + (i + 1)) &&& (2 ^ k - 1) := by
  simp only [probeGroup, land_two_pow_sub_one, triangle_succ]
  rw [Nat.mod_add_mod, Nat.add_assoc]

theorem triangle_add (i d : Nat) : triangle (i + d) = triangle i + triangle d + i * d := by
  have h := two_mul_triangle (i + d)
  have h1 := two_mul_triangle i
  have h2 := two_mul_triangle d
  have h3 : (i + d) * (i + d + 1) = i * (i + 1) + d * (d + 1) + 2 * (i * d) := by ring
  omega

theorem triangle_mod_inj_le (k i d : Nat) (hj : i + d < 2 ^ k)
    (h : triangle i % 2 ^ k = triangle (i + d) % 2 ^ k) : d = 0 := by
  by_contra hd0
  have hd : 0 < d := Nat.pos_of_ne_zero hd0
  -- 2^k divides triangle (i+d) - triangle i = triangle d + i*d
  have h' : triangle i % 2 ^ k = (triangle i + triangle d + i * d) % 2 ^ k := by
    rw [h, triangle_add]
  have hdvd : 2 ^ k ∣ triangle d + i * d := by
    have h2 : (2 : Nat) ^ k ∣ (triangle i + triangle d + i * d) - triangle i :=
      (Nat.modEq_iff_dvd' (by omega)).mp h'
    have h3 : (triangle i + triangle d + i * d) - triangle i = triangle d + i * d := by
      omega
    rwa [h3] at h2
  -- hence 2^(k+1) divides d * (2*i + d + 1)
  have hdvd2 : 2 ^ (k + 1) ∣ d * (2 * i + d + 1) := by
    obtain ⟨c, hc⟩ := hdvd
    refine ⟨c, ?_⟩
    have h2 := two_mul_triangle d
    have h4 : d * (2 * i + d + 1) = 2 * (triangle d + i * d) := by
      have h5 : d * (2 * i + d + 1) = d * (d + 1) + 2 * (i * d) := by ring
      omega
    rw [h4, hc, pow_succ]
    ring
  have hpow : 2 ^ (k + 1) = 2 * 2 ^ k := by ring
  rcases Nat.even_or_odd d with ⟨m, hm⟩ | ⟨m, hm⟩
  · -- d even, so 2*i + d + 1 is odd, hence 2^(k+1) ∣ d: impossible (0 < d < 2^(k+1))
    have hodd' : ¬ (2 ∣ 2 * i + d + 1) := by omega
    have hcop : Nat.Coprime (2 ^ (k + 1)) (2 * i + d + 1) :=
      Nat.Coprime.pow_left _ ((Nat.prime_two.coprime_iff_not_dvd).mpr hodd')
    have hdd : 2 ^ (k + 1) ∣ d := (Nat.Coprime.dvd_of_dvd_mul_right hcop) hdvd2
    have := Nat.le_of_dvd hd hdd
    omega
  · -- d odd, so 2^(k+1) ∣ 2*i + d + 1: impossible (0 < 2*i+d+1 < 2^(k+1))
    have hodd' : ¬ (2 ∣ d) := by omega
    have hcop : Nat.Coprime (2 ^ (k + 1)) d :=
      Nat.Coprime.pow_left _ ((Nat.prime_two.coprime_iff_not_dvd).mpr hodd')
    have hds : 2 ^ (k + 1) ∣ 2 * i + d + 1 := (Nat.Coprime.dvd_of_dvd_mul_left hcop) hdvd2
    have := Nat.le_of_dvd (by omega) hds
    omega

/-- Injectivity of `i ↦ triangle i (mod 2^k)` on `0 ≤ i < 2^k`: the
classical fact behind the termination comments in `find`/`set`. -/
theorem triangle_mod_inj (k i j : Nat) (hi : i < 2 ^ k) (hj : j < 2 ^ k)
    (h : triangle i % 2 ^ k = triangle j % 2 ^ k) : i = j := by
  rcases Nat.le_total i j with hle | hle
  · obtain ⟨d, rfl⟩ := Nat.le.dest hle
    have := triangle_mod_inj_le k i d hj h
    omega
  · obtain ⟨d, rfl⟩ := Nat.le.dest hle
    have := triangle_mod_inj_le k j d hi h.symm
    omega

theorem probeGroup_lt (g0 k i : Nat) : probeGroup g0 (2 ^ k - 1) i < 2 ^ k := by
  rw [probeGroup, land_two_pow_sub_one]
  exact Nat.mod_lt _ (Nat.pos_pow_of_pos k (by omega))

/-!
## The `Map` type and its operations (map.go)
-/

/-- `Map` from map.go.  The commented-out statistics fields (`gets`,
`getH2FalsePositives`, …) are never written by the live code and are
omitted.  The hash function and seed are injectable, as in the source
(tests overwrite `m.hashFunc`); `New` below takes them as parameters in
place of the runtime-linked `hashUint64`/`fastrand`. -/
structure Map where
  current : fixedTable
  old : Option fixedTable
  growStatus : List Nat
  sweepCursor : Nat
  elemCount : Int
  resizeThreshold : Int
  disableResizing : Bool
  hashF : Int → Nat → Nat
  seed : Nat

/-- `m.hashFunc(k, m.seed)` as it appears at the top of Get/set/Delete. -/
def mapHash (m : Map) (k : Int) : Nat := m.hashF k m.seed

/-- `New` from map.go, with the hash function and random seed injected. -/
def New (capacity : Int) (hashF : Int → Nat → Nat) (seed : Nat) : Option Map :=
  (newFixedTable (calcTableSize capacity)).map fun current =>
    { current := current
      old := none
      growStatus := []
      sweepCursor := 0
      elemCount := 0
      resizeThreshold := ((calcTableSize capacity * 13) / 16 : Nat)
      disableResizing := false
      hashF := hashF
      seed := seed }

/-- Growth status flag accessors from map.go.  Reads of `m.growStatus[g]`
use `getD _ 0`; the Go code would panic on an out-of-range index, which
never happens for the well-formed states all theorems range over. -/
def statusAt (m : Map) (g : Nat) : Nat := m.growStatus.getD g 0

def isEvacuated (statusByte : Nat) : Bool := statusByte &&& (1 <<< 0) != 0

def setEvacuated (statusByte : Nat) : Nat := statusByte ||| (1 <<< 0)

def isChainEvacuated (statusByte : Nat) : Bool := statusByte &&& (1 <<< 1) != 0

def setChainEvacuated (statusByte : Nat) : Nat := statusByte ||| (1 <<< 1)

def curHasDisplaced (statusByte : Nat) : Bool := statusByte &&& (1 <<< 2) != 0

def setCurHasDisplaced (statusByte : Nat) : Nat := statusByte ||| (1 <<< 2)

/-- Read a slot (`t.slots[pos]`); Go panics out of range, which cannot
happen for the in-range positions produced by masked group arithmetic on
well-formed tables. -/
def slotAt (t : fixedTable) (pos : Nat) : KV := t.slots.getD pos ⟨0, 0⟩

/-- Read a control byte (`t.control[pos]`). -/
def ctrlAt (t : fixedTable) (pos : Nat) : Nat := t.control.getD pos 0

/-- Write one entry: `control[pos] = h2; slots[pos] = KV{k, v}`. -/
def writeEntry (t : fixedTable) (pos : Nat) (ctrlByte : Nat) (k v : Int) : fixedTable :=
  { t with control := t.control.set pos ctrlByte,
           slots := t.slots.set pos ⟨k, v⟩ }

/-- The offsets of the set bits of a 16-bit match mask in trailing-zeros
order, i.e. ascending: the order in which the
`for bitmask != 0 { offset := bits.TrailingZeros32(bitmask); …; bitmask &^= 1 << offset }`
loops of find/set visit candidate offsets. -/
def bitIndices (mask : Nat) : List Nat :=
  (List.range 16).filter (fun i => mask.testBit i)

/-- `bits.TrailingZeros32` restricted to the 16-bit masks produced by
`MatchByte` (32 on a zero mask, as in Go). -/
def firstBit (mask : Nat) : Nat :=
  match bitIndices mask with
  | [] => 32
  | i :: _ => i

/-- The value of find's `offset` variable after its inner h2-candidate
loop exhausts `mask` without a key match: the last candidate examined, or
the previous value if the mask was empty. -/
def lastOffset (prev : Nat) (mask : Nat) : Nat :=
  match (bitIndices mask).getLast? with
  | none => prev
  | some i => i

/-- The inner candidate loop of `find`: try the h2-matching offsets in
trailing-zeros order, returning the first whose slot key equals `k`. -/
def scanH2 (t : fixedTable) (k : Int) (base : Nat) : List Nat → Option Nat
  | [] => none
  | off :: rest =>
      if (slotAt t (base + off)).key = k then some off else scanH2 t k base rest

/-- The probe loop of `Map.find` from map.go, with fuel for the unbounded
`for` loop (`none` models the non-terminating/panicking executions, which
well-formed states never reach). -/
def findLoop (t : fixedTable) (k : Int) (h2v : Nat) :
    Nat → Nat → Nat → Nat → Option (Option KV × Nat × Nat)
  | 0, _, _, _ => none
  | fuel + 1, group, probeCount, offset =>
    let bitmask := (MatchByte h2v (ctrlFrom t group)).1
    match scanH2 t k (group * 16) (bitIndices bitmask) with
    | some off => some (some (slotAt t (group * 16 + off)), group, off)
    | none =>
      let offset := lastOffset offset bitmask
      let emptyBitmask := (MatchByte emptySentinel (ctrlFrom t group)).1
      if emptyBitmask ≠ 0 then some (none, group, offset)
      else findLoop t k h2v fuel ((group + (probeCount + 1)) &&& t.groupMask)
            (probeCount + 1) offset

/-- `Map.find` from map.go: `find(t, k, h)` returns the slot content,
group and offset on a hit, and `(none, lastProbedGroup, _)` on a miss. -/
def find (t : fixedTable) (k : Int) (h : Nat) (fuel : Nat) :
    Option (Option KV × Nat × Nat) :=
  findLoop t k (t.h2 h) fuel (h &&& t.groupMask) 0 0

/-- The probe loop of `fixedTable.findFirstEmptyOrDeleted`. -/
def ffedLoop (t : fixedTable) : Nat → Nat → Nat → Option (Nat × Nat)
  | 0, _, _ => none
  | fuel + 1, group, probeCount =>
    let bitmask := matchEmptyOrDeleted (ctrlFrom t group)
    if bitmask ≠ 0 then some (group, firstBit bitmask)
    else ffedLoop t fuel ((group + (probeCount + 1)) &&& t.groupMask) (probeCount + 1)

/-- `fixedTable.findFirstEmptyOrDeleted` from map.go. -/
def findFirstEmptyOrDeleted (t : fixedTable) (h : Nat) (fuel : Nat) : Option (Nat × Nat) :=
  ffedLoop t fuel (h &&& t.groupMask) 0

/-- `Map.startResize` from map.go: double the threshold, move `current`
to `old`, allocate a doubled `current` and a zeroed `growStatus` of
`len(old.control)` bytes, and reset the sweep cursor. -/
def startResize (m : Map) : Option Map :=
  let newTableSize := m.current.control.length * 2
  (newFixedTable newTableSize).map fun fresh =>
    { m with
      resizeThreshold := m.resizeThreshold * 2
      old := some m.current
      current := fresh
      growStatus := List.replicate m.current.control.length 0
      sweepCursor := 0 }

/-- The `m.growStatus[oldGroup] = setCurHasDisplaced(…)` step that `set`
performs when it lands a key outside its natural group mid-growth. -/
def markCurHasDisplaced (m : Map) (group probeCount : Nat) : Map :=
  match m.old with
  | some old =>
      if probeCount ≠ 0 then
        let oldGroup := group &&& old.groupMask
        { m with growStatus :=
            m.growStatus.set oldGroup (setCurHasDisplaced (statusAt m oldGroup)) }
      else m
  | none => m

/-!
### The mutually recursive write path

`set` calls `moveGroups` (when growing), which calls `moveChain`,
`moveGroup` and the sweep loop; `moveGroup` re-inserts old entries through
`set` (with `moveIfNeeded = false`), and `set` may call `startResize` and
retry itself.  Every unbounded `for` loop becomes a recursive function,
and all of them consume one unit of `fuel` per call so the block is
structurally recursive; `none` models executions that run out of fuel
(the theorems below only use states where that cannot happen).
-/

mutual

/-- `Map.set` from map.go (lines 321–432). -/
def Map.set (fuel : Nat) (m : Map) (k v : Int) (elemIncr : Int) (moveIfNeeded : Bool) :
    Option Map :=
  match fuel with
  | 0 => none
  | fuel + 1 =>
    let h := mapHash m k
    let group := h &&& m.current.groupMask
    let h2v := m.current.h2 h
    (if moveIfNeeded && m.old.isSome then Map.moveGroups fuel m group k h
     else some m).bind fun m =>
      Map.setLoop fuel m k v elemIncr h h2v group 0

termination_by structural fuel

/-- The quadratic-probing `for` loop inside `Map.set`. -/

def Map.setLoop (fuel : Nat) (m : Map) (k v : Int) (elemIncr : Int) (h h2v : Nat)
    (group probeCount : Nat) : Option Map :=
  match fuel with
  | 0 => none
  | fuel + 1 =>
    let bitmask := (MatchByte h2v (ctrlFrom m.current group)).1
    match scanH2 m.current k (group * 16) (bitIndices bitmask) with
    | some offset =>
      -- update the existing key; element count unchanged
      let pos := group * 16 + offset
      some (markCurHasDisplaced { m with current := writeEntry m.current pos h2v k v }
        group probeCount)
    | none =>
      let emptyBitmask := matchEmpty (ctrlFrom m.current group)
      if emptyBitmask ≠ 0 then
        if m.elemCount + m.current.deleteCount ≥ m.resizeThreshold ∧
            m.disableResizing = false then
          (startResize m).bind fun m => Map.set fuel m k v 1 true
        else
          (if m.current.deleteCount = 0 ∨ probeCount = 0 then
             some (group, firstBit emptyBitmask)
           else findFirstEmptyOrDeleted m.current h fuel).bind fun go =>
            let group := go.1
            let offset := go.2
            let pos := group * 16 + offset
            let m := if ctrlAt m.current pos = deletedSentinel then
                { m with current :=
                    { m.current with deleteCount := m.current.deleteCount - 1 } }
              else m
            let m := { m with current := writeEntry m.current pos h2v k v,
                              elemCount := m.elemCount + elemIncr }
            some (markCurHasDisplaced m group probeCount)
      else
        Map.setLoop fuel m k v elemIncr h h2v
          ((group + (probeCount + 1)) &&& m.current.groupMask) (probeCount + 1)

termination_by structural fuel

/-- `Map.moveGroups` from map.go (lines 461–528): up to two primary
evacuations plus the targeted rare-path move and the bounded sweep. -/

def Map.moveGroups (fuel : Nat) (m : Map) (group : Nat) (k : Int) (h : Nat) : Option Map :=
  match fuel with
  | 0 => none
  | fuel + 1 =>
    match m.old with
    | none => none
    | some old =>
      let oldNatGroup := group &&& old.groupMask
      (if isEvacuated (statusAt m oldNatGroup) = false then
         (Map.moveGroup fuel m oldNatGroup).map fun m => (m, (1 : Int))
       else some (m, (2 : Int))).bind fun p =>
      (if isChainEvacuated (statusAt p.1 oldNatGroup) = false then
         (Map.moveChain fuel p.1 oldNatGroup 1 p.2).bind fun q =>
           if q.2.2 = false then
             -- rare path: the key may be displaced to a not-yet-moved group
             match q.1.old with
             | none => none
             | some oldNow =>
               (find oldNow k h fuel).bind fun fr =>
                 match fr.1 with
                 | some _ =>
                   if fr.2.1 ≠ oldNatGroup then
                     if isEvacuated (statusAt q.1 fr.2.1) = false then
                       (Map.moveGroup fuel q.1 fr.2.1).map fun m => (m, q.2.1 - 1)
                     else some (q.1, q.2.1)
                   else some (q.1, q.2.1)
                 | none => some (q.1, q.2.1)
           else some (q.1, q.2.1)
       else some p).bind fun p2 =>
      match p2.1.old with
      | none => none
      | some oldNow =>
        let stopCursor := min (oldNow.control.length / 16) (p2.1.sweepCursor + 1000)
        (Map.sweepLoop fuel p2.1 p2.2 stopCursor).bind fun m =>
        match m.old with
        | none => none
        | some oldNow2 =>
          if m.sweepCursor ≥ oldNow2.control.length / 16 then
            some { m with old := none, growStatus := [], sweepCursor := 0 }
          else some m

termination_by structural fuel

/-- The `for m.sweepCursor < stopCursor` sweep loop inside `moveGroups`. -/

def Map.sweepLoop (fuel : Nat) (m : Map) (allowedMoves : Int) (stopCursor : Nat) :
    Option Map :=
  match fuel with
  | 0 => none
  | fuel + 1 =>
    if m.sweepCursor < stopCursor then
      (if isChainEvacuated (statusAt m m.sweepCursor) = false then
         (Map.moveChain fuel m m.sweepCursor 0 allowedMoves).map fun q => (q.1, q.2.1)
       else some (m, allowedMoves)).bind fun p =>
      if isChainEvacuated (statusAt p.1 p.1.sweepCursor) then
        Map.sweepLoop fuel { p.1 with sweepCursor := p.1.sweepCursor + 1 } p.2 stopCursor
      else if p.2 ≤ 0 then some p.1
      else Map.sweepLoop fuel p.1 p.2 stopCursor
    else some m

termination_by structural fuel

/-- `Map.moveChain` from map.go (lines 536–555): compute the first probed
group, then walk the chain. -/

def Map.moveChain (fuel : Nat) (m : Map) (oldNatGroup probeCount : Nat)
    (allowedMoves : Int) : Option (Map × Int × Bool) :=
  match fuel with
  | 0 => none
  | fuel + 1 =>
    match m.old with
    | none => none
    | some old =>
      Map.moveChainLoop fuel m oldNatGroup probeCount
        ((oldNatGroup + probeCount) &&& old.groupMask) allowedMoves

termination_by structural fuel

/-- The `for allowedMoves > 0` loop of `moveChain`. -/

def Map.moveChainLoop (fuel : Nat) (m : Map) (oldNatGroup probeCount g : Nat)
    (allowedMoves : Int) : Option (Map × Int × Bool) :=
  match fuel with
  | 0 => none
  | fuel + 1 =>
    if allowedMoves > 0 then
      (if isEvacuated (statusAt m g) = false then
         (Map.moveGroup fuel m g).map fun m => (m, allowedMoves - 1)
       else some (m, allowedMoves)).bind fun p =>
      match p.1.old with
      | none => none
      | some old =>
        if matchEmpty (ctrlFrom old g) ≠ 0 then
          some ({ p.1 with growStatus :=
                    (p.1).growStatus.set oldNatGroup (setChainEvacuated (statusAt p.1 oldNatGroup)) },
                p.2, true)
        else
          Map.moveChainLoop fuel p.1 oldNatGroup (probeCount + 1)
            ((g + (probeCount + 1)) &&& old.groupMask) p.2
    else some (m, allowedMoves, false)

termination_by structural fuel

/-- `Map.moveGroup` from map.go (lines 560–583).  The `range` expression
snapshots the 16 control bytes of the group once at loop entry (Go slice
semantics), while the slots are read through the live `m.old`. -/

def Map.moveGroup (fuel : Nat) (m : Map) (group : Nat) : Option Map :=
  match fuel with
  | 0 => none
  | fuel + 1 =>
    match m.old with
    | none => none
    | some old =>
      (Map.moveGroupSlots fuel m group ((old.control.drop (group * 16)).take 16) 0).bind
        fun m =>
      let m := { m with growStatus :=
          m.growStatus.set group (setEvacuated (statusAt m group)) }
      match m.old with
      | none => none
      | some oldNow =>
        if matchEmpty (ctrlFrom oldNow group) ≠ 0 then
          some { m with growStatus :=
              m.growStatus.set group (setChainEvacuated (statusAt m group)) }
        else some m

termination_by structural fuel

/-- The `for offset, b := range …` loop of `moveGroup`: re-insert every
STORED entry of the old group into `current` via `set(kv, 0, false)`. -/

def Map.moveGroupSlots (fuel : Nat) (m : Map) (group : Nat) (bytes : List Nat)
    (offset : Nat) : Option Map :=
  match fuel with
  | 0 => none
  | fuel + 1 =>
    match bytes with
    | [] => some m
    | b :: rest =>
      (if isStored b then
         match m.old with
         | none => none
         | some old =>
           let kv := slotAt old (group * 16 + offset)
           Map.set fuel m kv.key kv.value 0 false
       else some m).bind fun m =>
      Map.moveGroupSlots fuel m group rest (offset + 1)
termination_by structural fuel

end

/-- `Map.Set` from map.go: `m.set(k, v, 1, true)`. -/
def Map.Set (fuel : Nat) (m : Map) (k v : Int) : Option Map :=
  Map.set fuel m k v 1 true

/-- `Map.Delete` from map.go (lines 585–624). -/
def Map.Delete (fuel : Nat) (m : Map) (k : Int) : Option Map :=
  let h := mapHash m k
  let group := h &&& m.current.groupMask
  (if m.old.isSome then Map.moveGroups fuel m group k h else some m).bind fun m =>
  (find m.current k h fuel).bind fun fr =>
  match fr.1 with
  | none => some m
  | some _ =>
    let group := fr.2.1
    let offset := fr.2.2
    let emptyBitmask := (MatchByte emptySentinel (ctrlFrom m.current group)).1
    let sm := if emptyBitmask = 0 then
        (deletedSentinel,
          { m with current := { m.current with deleteCount := m.current.deleteCount + 1 } })
      else (emptySentinel, m)
    let pos := group * 16 + offset
    some { sm.2 with
      current := { sm.2.current with
        control := sm.2.current.control.set pos sm.1,
        slots := sm.2.current.slots.set pos ⟨0, 0⟩ },
      elemCount := sm.2.elemCount - 1 }

/-- `Map.Get` from map.go (lines 168–233).  `Get` reads but never writes
the map, so it returns only the observed `(value, ok)` pair. -/
def Map.Get (fuel : Nat) (m : Map) (k : Int) : Option (Int × Bool) :=
  let h := mapHash m k
  match m.old with
  | none =>
    (find m.current k h fuel).map fun fr =>
      match fr.1 with
      | some kv => (kv.value, true)
      | none => (0, false)
  | some old =>
    if isChainEvacuated (statusAt m (h &&& old.groupMask)) then
      (find m.current k h fuel).map fun fr =>
        match fr.1 with
        | some kv => (kv.value, true)
        | none => (0, false)
    else
      let oldNatGroup := h &&& old.groupMask
      let oldNatGroupEvac := isEvacuated (statusAt m oldNatGroup)
      let table := if oldNatGroupEvac then m.current else old
      (find table k h fuel).bind fun fr =>
      match fr.1 with
      | some kv => some (kv.value, true)
      | none =>
        if oldNatGroupEvac = false then some (0, false)
        else
          (find old k h fuel).bind fun ofr =>
          if oldNatGroup = ofr.2.1 then some (0, false)
          else
            match ofr.1 with
            | some oldKv =>
              if isEvacuated (statusAt m ofr.2.1) = false then some (oldKv.value, true)
              else some (0, false)
            | none => some (0, false)

/-- `Map.Len` from map.go. -/
def Map.Len (m : Map) : Int := m.elemCount

/-!
### `Map.Range` (map.go lines 648–834)

`Range` snapshots `old`, `growStatus` and `current` at entry and then
walks both snapshots, consulting the live map for golden data.  We embed
it for callbacks that do not mutate the map (the setting of the iteration
claims): the callback is a pure `Int → Int → Bool` and the live map
therefore stays equal to the snapshot-time map throughout the walk.  The
result is the list of `(key, value)` pairs the callback is invoked on, in
invocation order (the walk stops right after an invocation returns
`false`); `none` models a diverging internal lookup, which cannot happen
on well-formed states.  The random starting point `r` is a parameter
(the Go code draws it from `fastrand`, or pins it to 0 when
`seed ∈ {0, 42}`).
-/

/-- Phase A body: one `(group, offset)` position of the old snapshot. -/
def rangeOldPos (m : Map) (old : fixedTable) (growStatus : List Nat) (cur : fixedTable)
    (f : Int → Int → Bool) (fuel : Nat) (pos : Nat) : Option (List (Int × Int) × Bool) :=
  if isStored (old.control.getD pos 0) then
    let k := (slotAt old pos).key
    if isEvacuated (growStatus.getD (pos / 16) 0) = false then
      -- not evacuated: old holds the golden data
      let v := (slotAt old pos).value
      some ([(k, v)], f k v)
    else if cur.groupMask = m.current.groupMask ∨ m.old = none then
      -- same grow as at iteration start (or finished): look in live current
      (find m.current k (mapHash m k) fuel).map fun fr =>
        match fr.1 with
        | some kv => ([(kv.key, kv.value)], f kv.key kv.value)
        | none => ([], true)
    else
      -- a newer generation of growth is underway: full Get
      (Map.Get fuel m k).map fun vo =>
        if vo.2 then ([(k, vo.1)], f k vo.1) else ([], true)
  else some ([], true)

/-- Phase A offset loop (16 offsets starting at `(r >> 61) & 0xF`). -/
def rangeOldOffsets (m : Map) (old : fixedTable) (growStatus : List Nat)
    (cur : fixedTable) (f : Int → Int → Bool) (fuel : Nat) (group : Nat) :
    Nat → Nat → Option (List (Int × Int) × Bool)
  | _, 0 => some ([], true)
  | offset, j + 1 =>
    (rangeOldPos m old growStatus cur f fuel (group * 16 + offset)).bind fun r =>
    if r.2 then
      (rangeOldOffsets m old growStatus cur f fuel group ((offset + 1) &&& 0xF) j).map
        fun r2 => (r.1 ++ r2.1, r2.2)
    else some (r.1, false)

/-- Phase A group loop. -/
def rangeOldGroups (m : Map) (old : fixedTable) (growStatus : List Nat)
    (cur : fixedTable) (f : Int → Int → Bool) (fuel : Nat) (startOffset : Nat) :
    Nat → Nat → Option (List (Int × Int) × Bool)
  | _, 0 => some ([], true)
  | group, i + 1 =>
    (rangeOldOffsets m old growStatus cur f fuel group startOffset 16).bind fun r =>
    if r.2 then
      (rangeOldGroups m old growStatus cur f fuel startOffset
          ((group + 1) &&& old.groupMask) i).map
        fun r2 => (r.1 ++ r2.1, r2.2)
    else some (r.1, false)

/-- Phase B body: one position of the current snapshot; positions whose
key is present in the old snapshot are skipped (already emitted). -/
def rangeCurPos (m : Map) (oldOpt : Option fixedTable) (growStatus : List Nat)
    (cur : fixedTable) (f : Int → Int → Bool) (fuel : Nat) (pos : Nat) :
    Option (List (Int × Int) × Bool) :=
  if isStored (cur.control.getD pos 0) then
    let curGroup := pos / 16
    let k := (slotAt cur pos).key
    ((match oldOpt with
      | some old =>
        let h := if curHasDisplaced (growStatus.getD (curGroup &&& old.groupMask) 0) = false
          then cur.reconstructHash (ctrlAt cur pos) curGroup
          else mapHash m k
        (find old k h fuel).map fun fr => fr.1.isSome
      | none => some false : Option Bool)).bind fun skip =>
    if skip then some ([], true)
    else if cur.groupMask = m.current.groupMask then
      let v := (slotAt cur pos).value
      some ([(k, v)], f k v)
    else
      (Map.Get fuel m k).map fun vo =>
        if vo.2 then ([(k, vo.1)], f k vo.1) else ([], true)
  else some ([], true)

/-- Phase B offset loop. -/
def rangeCurOffsets (m : Map) (oldOpt : Option fixedTable) (growStatus : List Nat)
    (cur : fixedTable) (f : Int → Int → Bool) (fuel : Nat) (group : Nat) :
    Nat → Nat → Option (List (Int × Int) × Bool)
  | _, 0 => some ([], true)
  | offset, j + 1 =>
    (rangeCurPos m oldOpt growStatus cur f fuel (group * 16 + offset)).bind fun r =>
    if r.2 then
      (rangeCurOffsets m oldOpt growStatus cur f fuel group ((offset + 1) &&& 0xF) j).map
        fun r2 => (r.1 ++ r2.1, r2.2)
    else some (r.1, false)

/-- Phase B group loop (over `loopMask = len(curControl)/16 - 1`). -/
def rangeCurGroups (m : Map) (oldOpt : Option fixedTable) (growStatus : List Nat)
    (cur : fixedTable) (f : Int → Int → Bool) (fuel : Nat) (startOffset loopMask : Nat) :
    Nat → Nat → Option (List (Int × Int) × Bool)
  | _, 0 => some ([], true)
  | group, i + 1 =>
    (rangeCurOffsets m oldOpt growStatus cur f fuel group startOffset 16).bind fun r =>
    if r.2 then
      (rangeCurGroups m oldOpt growStatus cur f fuel startOffset loopMask
          ((group + 1) &&& loopMask) i).map
        fun r2 => (r.1 ++ r2.1, r2.2)
    else some (r.1, false)

/-- `Map.Range` for a non-mutating callback: the pairs the callback is
invoked on, in order. -/
def Map.Range (fuel : Nat) (m : Map) (f : Int → Int → Bool) (r : Nat) :
    Option (List (Int × Int)) :=
  let cur := m.current
  ((match m.old, m.growStatus with
    | some oldT, growStatus =>
      rangeOldGroups m oldT growStatus cur f fuel ((r >>> 61) &&& 0xF)
        (r &&& oldT.groupMask) (oldT.control.length / 16)
    | none, _ => some ([], true) : Option (List (Int × Int) × Bool))).bind fun ra =>
  if ra.2 then
    let loopMask := cur.control.length / 16 - 1
    (rangeCurGroups m m.old m.growStatus cur f fuel ((r >>> 61) &&& 0xF) loopMask
        (r &&& loopMask) (cur.control.length / 16)).map
      fun rb => ra.1 ++ rb.1
  else some ra.1

/-!
### Operation sequences and the reference dictionary
-/

/-- A user-visible operation on the map. -/
inductive Op where
  | set (k v : Int)
  | del (k : Int)
  | get (k : Int)
  deriving DecidableEq, Repr

/-- Apply one operation to the map state.  `Get` does not return a state
in the embedding because the Go `Get` never writes a field of `m`. -/
def applyOp (fuel : Nat) (m : Map) : Op → Option Map
  | .set k v => Map.Set fuel m k v
  | .del k => Map.Delete fuel m k
  | .get _ => some m

/-- Run a sequence of operations. -/
def runOps (fuel : Nat) (m : Map) : List Op → Option Map
  | [] => some m
  | op :: ops => (applyOp fuel m op).bind fun m => runOps fuel m ops

/-- The reference dictionary: apply one operation to a partial function
`Int → Option Int` (the built-in-map semantics of the spec). -/
def refApply (r : Int → Option Int) : Op → (Int → Option Int)
  | .set k v => fun x => if x = k then some v else r x
  | .del k => fun x => if x = k then none else r x
  | .get _ => r

/-- Run a sequence of operations on the reference dictionary. -/
def refRun (r : Int → Option Int) : List Op → (Int → Option Int)
  | [] => r
  | op :: ops => refRun (refApply r op) ops

/-!
## Claim C9: the `MatchByte` contract
-/

/-- **C9.** For every byte `c` and every byte buffer: with at least 16
bytes, `MatchByte(c, buffer)` returns `(mask, true)` where bit `i` of
`mask` (for `i < 16`) is 1 iff `buffer[i] = c` and bits 16 and above are
0; with fewer than 16 bytes it returns `(0, false)`. -/
theorem c9_matchByte_contract (c : Nat) (buffer : List Nat) :
    (16 ≤ buffer.length →
      (MatchByte c buffer).2 = true ∧
      (∀ i, i < 16 → ((MatchByte c buffer).1.testBit i = (buffer.get? i = some c))) ∧
      (∀ i, 16 ≤ i → (MatchByte c buffer).1.testBit i = false)) ∧
    (buffer.length < 16 → MatchByte c buffer = (0, false)) := by
  constructor
  · intro hlen
    have hnot : ¬ buffer.length < 16 := by omega
    refine ⟨by simp [MatchByte, hnot], ?_, ?_⟩
    · intro i hi
      simp only [MatchByte, hnot, if_false]
      exact matchMask_testBit c 16 buffer i hi
    · intro i hi
      simp only [MatchByte, hnot, if_false]
      exact matchMask_testBit_ge c 16 buffer i hi
  · intro hlen
    simp [MatchByte, hlen]

/-- Witness for C9 at a concrete input: a 16-byte buffer holding `42` at
offsets 0, 2 and 15. -/
theorem c9_matchByte_contract_witness :
    16 ≤ ([42, 0, 42, 0, 0, 0, 0, 0, 0, 0, 0, 0, 0, 0, 0, 42] : List Nat).length ∧
    (MatchByte 42 ([42, 0, 42, 0, 0, 0, 0, 0, 0, 0, 0, 0, 0, 0, 0, 42] : List Nat)).2 = true ∧
    (MatchByte 42 ([42, 0, 42, 0, 0, 0, 0, 0, 0, 0, 0, 0, 0, 0, 0, 42] : List Nat)).1.testBit 2
      = (([42, 0, 42, 0, 0, 0, 0, 0, 0, 0, 0, 0, 0, 0, 0, 42] : List Nat).get? 2 = some 42) ∧
    (MatchByte 42 ([42, 0, 42, 0, 0, 0, 0, 0, 0, 0, 0, 0, 0, 0, 0, 42] : List Nat)).1.testBit 20 = false :=
  ⟨by decide,
   ((c9_matchByte_contract 42 _).1 (by decide)).1,
   ((c9_matchByte_contract 42 _).1 (by decide)).2.1 2 (by decide),
   ((c9_matchByte_contract 42 _).1 (by decide)).2.2 20 (by decide)⟩

/-!
## Claim C3: hash reconstruction

The claim asserts `reconstructHash(c, g) = h & ((1 << (h2Shift+7)) − 1)`
for *every* stored key, explicitly including keys displaced from their
natural group.  For a displaced key the group bits of the reconstruction
come from the displaced group, not from `h`, so the equation fails; it
holds exactly when `g` is the key's natural group `h & groupMask` (which
is why `Range` only uses `reconstructHash` on groups without displaced
entries, guarded by the `CurHasDisplaced` flag).
-/

/-- Decidable well-formedness of a `fixedTable` with respect to a hash
assignment `hashOf` (the invariants §3 of the spec states for
FixedTable): consistent lengths, power-of-two group count, every control
byte one of EMPTY/DELETED/h2-of-the-stored-key, every stored key on its
probe path with no EMPTY group strictly before it, and at most one stored
position per key. -/
def tableWF (t : fixedTable) (hashOf : Int → Nat) : Bool :=
  (t.control.length == 16 * (t.groupMask + 1)) &&
  (t.slots.length == t.control.length) &&
  (t.groupMask + 1 == 2 ^ t.h2Shift) &&
  ((List.range t.control.length).all fun pos =>
    let b := ctrlAt t pos
    (b == emptySentinel) || (b == deletedSentinel) ||
    (decide (b < 128) &&
     (b == t.h2 (hashOf (slotAt t pos).key)) &&
     ((List.range (t.groupMask + 1)).any fun j =>
        (pos / 16 == probeGroup (hashOf (slotAt t pos).key &&& t.groupMask) t.groupMask j) &&
        ((List.range j).all fun i =>
          matchEmpty (ctrlFrom t
            (probeGroup (hashOf (slotAt t pos).key &&& t.groupMask) t.groupMask i)) == 0)))) &&
  ((List.range t.control.length).all fun p =>
    (List.range t.control.length).all fun q =>
      !(isStored (ctrlAt t p)) || !(isStored (ctrlAt t q)) ||
      !((slotAt t p).key == (slotAt t q).key) || (p == q))

/-- **C3 (amended).** For a table with power-of-two group count, a key
whose stored control byte is `c = h2(h)` sitting in its *natural* group
`g = h & groupMask` satisfies
`reconstructHash c g = h & ((1 << (h2Shift + 7)) − 1)`. -/
theorem c3_reconstructHash_natural (t : fixedTable) (h c g : Nat)
    (hmask : t.groupMask + 1 = 2 ^ t.h2Shift)
    (hc : c = t.h2 h) (hg : g = h &&& t.groupMask) :
    t.reconstructHash c g = h &&& ((1 <<< (t.h2Shift + 7)) - 1) := by
  subst hc hg
  have hm : t.groupMask = 2 ^ t.h2Shift - 1 := by omega
  have h127 : (0x7f : Nat) = 2 ^ 7 - 1 := by norm_num
  have h1 : (1 <<< (t.h2Shift + 7) : Nat) = 2 ^ (t.h2Shift + 7) := by
    simp [Nat.shiftLeft_eq]
  rw [fixedTable.reconstructHash, fixedTable.h2, hm, h1, h127]
  apply Nat.eq_of_testBit_eq
  intro i
  simp only [Nat.testBit_lor, Nat.testBit_shiftLeft, Nat.testBit_shiftRight,
    land_two_pow_sub_one, Nat.testBit_mod_two_pow]
  rcases Nat.lt_or_ge i t.h2Shift with hlt | hge
  · simp [hlt, show ¬ (t.h2Shift ≤ i) by omega, show i < t.h2Shift + 7 by omega]
  · have h3 : t.h2Shift + (i - t.h2Shift) = i := by omega
    rw [h3]
    by_cases h4 : i < t.h2Shift + 7
    · simp [show ¬ i < t.h2Shift by omega, hge, h4, show i - t.h2Shift < 7 by omega]
    · simp [show ¬ i < t.h2Shift by omega, hge, h4, show ¬ (i - t.h2Shift < 7) by omega]

/-- Witness for the amended C3: the table built by `newFixedTable 32`
(groupMask 1, h2Shift 1) with `h = 32` (natural group 0, `h2 = 16`):
`reconstructHash 16 0 = 32 & 255`. -/
theorem c3_reconstructHash_natural_witness :
    ∃ t : fixedTable, newFixedTable 32 = some t ∧
      t.reconstructHash (t.h2 32) (32 &&& t.groupMask)
        = 32 &&& ((1 <<< (t.h2Shift + 7)) - 1) := by
  refine ⟨{ control := List.replicate 32 emptySentinel,
            slots := List.replicate 32 ⟨0, 0⟩,
            groupMask := 1, h2Shift := 1, deleteCount := 0 }, by decide, ?_⟩
  exact c3_reconstructHash_natural _ 32 _ _ (by decide) rfl rfl

/-- A well-formed 32-slot table (identity hash, keys `0,2,…,30` filling
group 0) in which key `32` (hash 32, natural group 0) is displaced into
group 1. -/
def t32 : fixedTable :=
  { control := (List.range 16) ++ [16] ++ List.replicate 15 emptySentinel
    slots := ((List.range 16).map fun i => ⟨2 * (i : Int), 100 + (i : Int)⟩) ++
      [⟨32, 999⟩] ++ List.replicate 15 ⟨0, 0⟩
    groupMask := 1
    h2Shift := 1
    deleteCount := 0 }

/-- The identity hash from map_test.go (`identityHash`), on the
non-negative keys used here. -/
def idHashN : Int → Nat := fun k => k.toNat

/-- **C3 counterexample.** In the well-formed table `t32`, key `32`
(hash `h = 32`) is stored at group `g = 1` with STORED control byte
`c = 16 = h2(32)`, yet
`reconstructHash c g = 33 ≠ 32 = h & ((1 << (h2Shift+7)) − 1)`:
the claim fails for keys displaced from their natural group. -/
theorem c3_counterexample :
    tableWF t32 idHashN = true ∧
    isStored (ctrlAt t32 (1 * 16 + 0)) = true ∧
    (slotAt t32 (1 * 16 + 0)).key = 32 ∧
    ctrlAt t32 (1 * 16 + 0) = t32.h2 (idHashN 32) ∧
    t32.reconstructHash (ctrlAt t32 (1 * 16 + 0)) 1
      ≠ idHashN 32 &&& ((1 <<< (t32.h2Shift + 7)) - 1) := by
  refine ⟨by decide, by decide, by decide, by decide, by decide⟩

/-!
## Claim C5: the `growStatus` allocation in `startResize`

The source allocates `make([]byte, len(m.old.control))`, i.e. one byte
per *slot* of the old table (`old.T` bytes), not one byte per *group*
(`old.T/16`); only the first `old.T/16` entries are ever indexed.
-/

/-- `identityHash` from map_test.go (on the non-negative keys used in the
concrete states of this file). -/
def identityHash : Int → Nat → Nat := fun k _ => k.toNat

/-- `zeroHash` from map_test.go. -/
def zeroHashF : Int → Nat → Nat := fun _ _ => 0

/-- **C5 (amended).** Whenever `startResize` succeeds it moves `current`
(table size `T`) to `old` and allocates a zeroed `growStatus` of length
`old.T` — one byte per position, not `old.T/16` — doubling the threshold
and resetting the sweep cursor. -/
theorem c5_startResize_growStatus (m m' : Map) (h : startResize m = some m') :
    m'.old = some m.current ∧
    m'.growStatus = List.replicate m.current.control.length 0 ∧
    m'.growStatus.length = m.current.control.length ∧
    (∀ b ∈ m'.growStatus, b = 0) ∧
    m'.sweepCursor = 0 ∧
    m'.resizeThreshold = m.resizeThreshold * 2 ∧
    m'.current.control.length = m.current.control.length * 2 := by
  simp only [startResize] at h
  rcases Option.map_eq_some'.mp h with ⟨fresh, hf, hg⟩
  subst hg
  refine ⟨rfl, rfl, by simp, ?_, rfl, rfl, ?_⟩
  · intro b hb
    exact List.eq_of_mem_replicate hb
  · simp only [newFixedTable] at hf
    split at hf
    · exact absurd hf (by simp)
    · simp only [Option.some.injEq] at hf
      subst hf
      simp

/-- The map returned by `New 1 identityHash 1` (table size 16). -/
def c5m : Map :=
  { current := { control := List.replicate 16 emptySentinel,
                 slots := List.replicate 16 ⟨0, 0⟩,
                 groupMask := 0, h2Shift := 0, deleteCount := 0 }
    old := none, growStatus := [], sweepCursor := 0, elemCount := 0,
    resizeThreshold := 13, disableResizing := false, hashF := identityHash, seed := 1 }

theorem c5m_eq_New : New 1 identityHash 1 = some c5m := rfl

/-- The result of `startResize c5m`. -/
def c5m' : Map :=
  { current := { control := List.replicate 32 emptySentinel,
                 slots := List.replicate 32 ⟨0, 0⟩,
                 groupMask := 1, h2Shift := 1, deleteCount := 0 }
    old := some c5m.current, growStatus := List.replicate 16 0, sweepCursor := 0,
    elemCount := 0, resizeThreshold := 26, disableResizing := false,
    hashF := identityHash, seed := 1 }

/-- Witness for the amended C5 at the concrete map `c5m`. -/
theorem c5_startResize_growStatus_witness :
    startResize c5m = some c5m' ∧ c5m'.old = some c5m.current ∧
    c5m'.growStatus = List.replicate c5m.current.control.length 0 :=
  ⟨rfl, (c5_startResize_growStatus c5m c5m' rfl).1,
    (c5_startResize_growStatus c5m c5m' rfl).2.1⟩

/-- **C5 counterexample.** Resizing the 16-slot table of
`New 1 identityHash 1` allocates a `growStatus` of length 16 (= `old.T`),
not `old.T/16 = 1` as the claim states. -/
theorem c5_counterexample :
    ((New 1 identityHash 1).bind startResize).map
        (fun m' => (m'.growStatus.length, m'.old.map fun o => o.control.length / 16))
      = some (16, some 1) ∧ (16 : Nat) ≠ 1 :=
  ⟨rfl, by decide⟩

/-!
## Claim C7: triangular probing is a permutation
-/

/-- **C7.** For a power-of-two group count `G = 2^k` and any starting
group `g0 < G`, the probe sequence `g_i = (g0 + triangle i) & (G − 1)`
(the sequence `find`/`set`/`findFirstEmptyOrDeleted` walk) visits every
group exactly once as `i` ranges over `0 … G−1`. -/
theorem c7_probe_permutation (k g0 : Nat) (hg : g0 < 2 ^ k) :
    Function.Bijective (fun i : Fin (2 ^ k) =>
      (⟨probeGroup g0 (2 ^ k - 1) i.val, probeGroup_lt g0 k i.val⟩ : Fin (2 ^ k))) := by
  have hinj : Function.Injective (fun i : Fin (2 ^ k) =>
      (⟨probeGroup g0 (2 ^ k - 1) i.val, probeGroup_lt g0 k i.val⟩ : Fin (2 ^ k))) := by
    intro i j hij
    have h1 : probeGroup g0 (2 ^ k - 1) i.val = probeGroup g0 (2 ^ k - 1) j.val := by
      simpa using congrArg Fin.val hij
    simp only [probeGroup, land_two_pow_sub_one] at h1
    have h2 : triangle i.val ≡ triangle j.val [MOD 2 ^ k] :=
      Nat.ModEq.add_left_cancel' g0 h1
    exact Fin.ext (triangle_mod_inj k i.val j.val i.isLt j.isLt h2)
  exact Finite.injective_iff_bijective.mp hinj

/-- Witness for C7 with 4 groups and starting group 1. -/
theorem c7_probe_permutation_witness :
    1 < 2 ^ 2 ∧
    Function.Bijective (fun i : Fin (2 ^ 2) =>
      (⟨probeGroup 1 (2 ^ 2 - 1) i.val, probeGroup_lt 1 2 i.val⟩ : Fin (2 ^ 2))) :=
  ⟨by decide, c7_probe_permutation 2 1 (by decide)⟩

/-!
## Claim C10: `Get` is observably pure

The Go `Get` (and the `find` it calls) assigns no field of `m` — the
statistics counters in the source are commented out — so the embedding
gives it the read-only type `Map → Int → Option (Int × Bool)` and the
operation interpreter keeps the state unchanged on a `get`.
-/

/-- **C10.** `Get` leaves the entire map state unchanged: a `get` step
returns the state it was given, a second consecutive `Get(k)` observes
exactly what the first did, and inserting a `Get` anywhere in an
operation sequence does not change where the sequence ends up. -/
theorem c10_get_pure (fuel : Nat) (m : Map) (k : Int) (ops₁ ops₂ : List Op) :
    applyOp fuel m (Op.get k) = some m ∧
    (applyOp fuel m (Op.get k)).bind (fun m' => Map.Get fuel m' k) = Map.Get fuel m k ∧
    runOps fuel m (ops₁ ++ Op.get k :: ops₂) = runOps fuel m (ops₁ ++ ops₂) := by
  refine ⟨rfl, rfl, ?_⟩
  induction ops₁ generalizing m with
  | nil => simp [runOps, applyOp]
  | cons op ops ih =>
    simp only [List.cons_append, runOps]
    cases applyOp fuel m op with
    | none => simp
    | some m' => simpa using ih m'

/-!
## A concrete mid-growth state for claims C4, C6 and C8

`growM` below is a well-formed state in the middle of a growth from table
size 64 to 128.  It satisfies every invariant §3 of the spec states for
`Map`: `elemCount (= 32)` equals the STORED count of `current` (32) plus
the un-evacuated STORED count of `old` (0); `old`, `growStatus` and the
growth are all live together; `current.T = 2 · old.T`; and the flag
semantics hold (old groups 0 and 1 — sixteen keys of hash 0 each, group 1
holding the probe-displaced half — are Evacuated with their golden copies
in `current`, where the group-1 copies are displaced, recorded by the
`CurHasDisplaced` bit of status byte 1; groups 2 and 3 are entirely EMPTY
and not yet evacuated; the sweep cursor is parked at group 0, whose probe
chain (groups 0, 1, then 3, where the first EMPTY byte appears) has not
been walked to its end, so group 0 is not ChainEvacuated).  The injected
hash function sends every stored key to 0 and the probe key 1000 to 2,
like the `zeroHash`/`identityHash` helpers the repository's tests inject.
-/

/-- The injectable hash used by the concrete mid-growth state. -/
def ceHash : Int → Nat → Nat := fun k _ => if k = 1000 then 2 else 0

/-- A well-formed mid-growth map state (old table size 64, current 128);
see the section comment above for its layout. -/
def growM : Map :=
  { current :=
      { control := List.replicate 32 0 ++ List.replicate 96 emptySentinel
        slots := ((List.range 32).map fun i => ⟨(i : Int), 1000 + (i : Int)⟩) ++
          List.replicate 96 ⟨0, 0⟩
        groupMask := 7
        h2Shift := 3
        deleteCount := 0 }
    old := some
      { control := List.replicate 32 0 ++ List.replicate 32 emptySentinel
        slots := ((List.range 32).map fun i => ⟨(i : Int), 1000 + (i : Int)⟩) ++
          List.replicate 32 ⟨0, 0⟩
        groupMask := 3
        h2Shift := 2
        deleteCount := 0 }
    growStatus := [1, 5, 0, 0] ++ List.replicate 60 0
    sweepCursor := 0
    elemCount := 32
    resizeThreshold := 104
    disableResizing := false
    hashF := ceHash
    seed := 1 }

set_option maxRecDepth 100000 in
set_option maxHeartbeats 1000000 in
/-- **C4 counterexample.**  From the mid-growth state `growM` with old
table size `T_old = 64`, the claim says any sequence of at least
`T_old/16000 = 64/16000 (< 1)` Set/Delete operations completes the
growth — so a single operation must.  Yet after one `Delete` the old
table is still present (`old ≠ null`, sweep cursor 1 of 4): the sweep
stalls as soon as its two move credits are spent, so completion is
bounded by move credits, not by the 1000-group sweep window. -/
theorem c4_counterexample :
    (growM.old.map fun o => o.control.length) = some 64 ∧
    1 ≥ 64 / 16000 ∧
    (runOps 64 growM [Op.del 1000]).map (fun m' => (m'.old.isSome, m'.sweepCursor))
      = some (true, 1) := by
  exact ⟨rfl, by decide, by decide⟩

set_option maxRecDepth 100000 in
set_option maxHeartbeats 1000000 in
/-- **C8 counterexample.**  In the mid-growth state `growM` the key 1000
is absent (`Get` returns `(0, false)`), yet `Delete(1000)` is not a
no-op: it performs evacuation work, changing `growStatus` bytes 2 to 5
and advancing the sweep cursor from 0 to 1. -/
theorem c8_counterexample :
    Map.Get 64 growM 1000 = some (0, false) ∧
    growM.sweepCursor = 0 ∧ growM.growStatus.take 4 = [1, 5, 0, 0] ∧
    (Map.Delete 64 growM 1000).map (fun m' => (m'.sweepCursor, m'.growStatus.take 4))
      = some (1, [3, 5, 3, 3]) ∧
    ((1 : Nat), ([3, 5, 3, 3] : List Nat)) ≠ (growM.sweepCursor, growM.growStatus.take 4) := by
  exact ⟨by decide, rfl, by decide, by decide, by decide⟩

/-!
## Claim C8 (amended): the effect of `Delete` when no growth is running
-/

theorem exists_testBit_of_ne_zero {n : Nat} (h : n ≠ 0) : ∃ i, n.testBit i = true := by
  by_contra hc
  push_neg at hc
  exact h (Nat.eq_of_testBit_eq fun i => by
    simp [Nat.zero_testBit, Bool.eq_false_iff.mpr (hc i)])

/-- The mask returned by a 16-byte `MatchByte` scan of group `g` is
non-zero exactly when some control byte of the group equals `c`. -/
theorem matchByte_ne_zero_iff (c : Nat) (t : fixedTable) (g : Nat)
    (hlen : g * 16 + 16 ≤ t.control.length) :
    (MatchByte c (ctrlFrom t g)).1 ≠ 0 ↔ ∃ i, i < 16 ∧ ctrlAt t (g * 16 + i) = c := by
  have hwl : ¬ (ctrlFrom t g).length < 16 := by
    simp only [ctrlFrom, List.length_drop]
    omega
  have hmb : (MatchByte c (ctrlFrom t g)).1 = matchMask c 16 (ctrlFrom t g) := by
    simp [MatchByte, hwl]
  have hget : ∀ i, i < 16 →
      ((ctrlFrom t g).get? i = some c ↔ ctrlAt t (g * 16 + i) = c) := by
    intro i hi
    rw [ctrlFrom, List.get?_drop]
    have hlt : g * 16 + i < t.control.length := by omega
    rcases List.get?_eq_get (l := t.control) (n := g * 16 + i) hlt with hg2
    constructor
    · intro hsome
      simp only [ctrlAt, List.getD_eq_get?, hsome, Option.getD_some]
    · intro hctrl
      rw [hg2]
      simp only [ctrlAt, List.getD_eq_get?, hg2, Option.getD_some] at hctrl
      exact congrArg some hctrl
  rw [hmb]
  constructor
  · intro hne
    obtain ⟨i, hbit⟩ := exists_testBit_of_ne_zero hne
    have hi : i < 16 := by
      by_contra hge
      rw [matchMask_testBit_ge c 16 _ i (by omega)] at hbit
      exact Bool.false_ne_true hbit
    rw [matchMask_testBit c 16 _ i hi] at hbit
    exact ⟨i, hi, (hget i hi).mp hbit⟩
  · rintro ⟨i, hi, hc⟩ h0
    have hbit : (matchMask c 16 (ctrlFrom t g)).testBit i = true :=
      (matchMask_testBit c 16 (ctrlFrom t g) i hi).symm ▸ ((hget i hi).mpr hc)
    rw [h0, Nat.zero_testBit] at hbit
    exact Bool.false_ne_true hbit

/-- **C8 (amended).** When no growth is in progress (`old = null`),
`Delete(k)` is a no-op when `k` is absent; when `find` locates `k` in
group `g` at offset `off` of the current table, the slot is cleared, the
element count drops by one, and the control byte becomes EMPTY when the
group holds at least one EMPTY byte and otherwise DELETED with
`deleteCount` incremented.  (Mid-growth the no-op clause fails:
`c8_counterexample`.) -/
theorem c8_delete_no_growth (fuel : Nat) (m : Map) (k : Int) (hold : m.old = none) :
    (∀ g off, find m.current k (mapHash m k) fuel = some (none, g, off) →
      Map.Delete fuel m k = some m) ∧
    (∀ kv g off, find m.current k (mapHash m k) fuel = some (some kv, g, off) →
      g * 16 + 16 ≤ m.current.control.length →
      ∃ m', Map.Delete fuel m k = some m' ∧
        m'.old = none ∧
        m'.elemCount = m.elemCount - 1 ∧
        m'.current.slots = m.current.slots.set (g * 16 + off) ⟨0, 0⟩ ∧
        ((∃ i, i < 16 ∧ ctrlAt m.current (g * 16 + i) = emptySentinel) →
          m'.current.control = m.current.control.set (g * 16 + off) emptySentinel ∧
          m'.current.deleteCount = m.current.deleteCount) ∧
        ((¬ ∃ i, i < 16 ∧ ctrlAt m.current (g * 16 + i) = emptySentinel) →
          m'.current.control = m.current.control.set (g * 16 + off) deletedSentinel ∧
          m'.current.deleteCount = m.current.deleteCount + 1)) := by
  constructor
  · intro g off hf
    simp [Map.Delete, hold, hf]
  · intro kv g off hf hlen
    by_cases hbm : (MatchByte emptySentinel (ctrlFrom m.current g)).1 = 0
    · -- no EMPTY byte in the group: tombstone
      refine ⟨{ m with
          current := { m.current with
            control := m.current.control.set (g * 16 + off) deletedSentinel,
            slots := m.current.slots.set (g * 16 + off) ⟨0, 0⟩,
            deleteCount := m.current.deleteCount + 1 },
          elemCount := m.elemCount - 1 },
        by simp [Map.Delete, hold, hf, hbm], hold, rfl, rfl, ?_, fun _ => ⟨rfl, rfl⟩⟩
      intro hex
      exact absurd hbm ((matchByte_ne_zero_iff emptySentinel m.current g hlen).mpr hex)
    · -- the group holds an EMPTY byte: clear to EMPTY
      refine ⟨{ m with
          current := { m.current with
            control := m.current.control.set (g * 16 + off) emptySentinel,
            slots := m.current.slots.set (g * 16 + off) ⟨0, 0⟩ },
          elemCount := m.elemCount - 1 },
        by simp [Map.Delete, hold, hf, hbm], hold, rfl, rfl, fun _ => ⟨rfl, rfl⟩, ?_⟩
      intro hnex
      exact absurd ((matchByte_ne_zero_iff emptySentinel m.current g hlen).mp hbm) hnex

/-- The one-element map used to witness the amended C8: key 3 (value 7)
stored at position 0 of a 16-slot table with the identity hash. -/
def c8m : Map :=
  { current := { control := [3] ++ List.replicate 15 emptySentinel,
                 slots := [⟨3, 7⟩] ++ List.replicate 15 ⟨0, 0⟩,
                 groupMask := 0, h2Shift := 0, deleteCount := 0 }
    old := none, growStatus := [], sweepCursor := 0, elemCount := 1,
    resizeThreshold := 13, disableResizing := false, hashF := identityHash, seed := 1 }

/-- Witness for the amended C8: deleting the absent key 99 from `c8m`
leaves the map unchanged; deleting the present key 3 clears the slot. -/
theorem c8_delete_no_growth_witness :
    Map.Delete 64 c8m 99 = some c8m ∧
    (Map.Delete 64 c8m 3).map
        (fun m' => (m'.elemCount, m'.current.control.take 1, m'.current.deleteCount))
      = some (0, [emptySentinel], 0) :=
  ⟨(c8_delete_no_growth 64 c8m 99 rfl).1 0 0 (by decide), by decide⟩

/-!
## Frame lemmas for the write path

Below the resize trigger (`elemCount + current.deleteCount <
resizeThreshold`, which holds in every reachable state between
operations), no function of the write path can reach `startResize`: every
call leaves `old` either untouched or completed to `none`, never replaces
it, and keeps `resizeThreshold`, the hash function, the seed and the
`disableResizing` flag unchanged, while `elemCount + deleteCount` grows
by at most the `elemIncr` of the call.
-/

/-- The quantity the resize trigger compares against the threshold. -/
def msum (m : Map) : Int := m.elemCount + m.current.deleteCount

/-- Frame of one write-path call: `old` is preserved or dropped, the
resize configuration is untouched, and `msum` grows by at most `e`. -/
def stepFrame (m r : Map) (e : Int) : Prop :=
  (r.old = m.old ∨ r.old = none) ∧
  r.resizeThreshold = m.resizeThreshold ∧
  r.hashF = m.hashF ∧ r.seed = m.seed ∧
  r.disableResizing = m.disableResizing ∧
  msum r ≤ msum m + e

theorem stepFrame_refl (m : Map) (e : Int) (he : 0 ≤ e) : stepFrame m m e :=
  ⟨Or.inl rfl, rfl, rfl, rfl, rfl, by omega⟩

theorem stepFrame_trans {m r s : Map} {e e' : Int}
    (h1 : stepFrame m r e) (h2 : stepFrame r s e') : stepFrame m s (e + e') := by
  obtain ⟨ho1, ht1, hh1, hs1, hd1, hm1⟩ := h1
  obtain ⟨ho2, ht2, hh2, hs2, hd2, hm2⟩ := h2
  refine ⟨?_, ht2.trans ht1, hh2.trans hh1, hs2.trans hs1, hd2.trans hd1, by omega⟩
  rcases ho2 with h | h
  · rw [h]; exact ho1
  · exact Or.inr h

/-- The per-function frame statements, indexed by fuel. -/
def PSet (fuel : Nat) : Prop :=
  ∀ m k v e mv r, 0 ≤ e → msum m < m.resizeThreshold →
    Map.set fuel m k v e mv = some r → stepFrame m r e

def PSetLoop (fuel : Nat) : Prop :=
  ∀ m k v e h h2v g pc r, 0 ≤ e → msum m < m.resizeThreshold →
    Map.setLoop fuel m k v e h h2v g pc = some r → stepFrame m r e

def PMoveGroups (fuel : Nat) : Prop :=
  ∀ m g k h r, msum m < m.resizeThreshold →
    Map.moveGroups fuel m g k h = some r → stepFrame m r 0

def PSweepLoop (fuel : Nat) : Prop :=
  ∀ m am sc r, msum m < m.resizeThreshold →
    Map.sweepLoop fuel m am sc = some r → stepFrame m r 0

def PMoveChain (fuel : Nat) : Prop :=
  ∀ m g pc am r, msum m < m.resizeThreshold →
    Map.moveChain fuel m g pc am = some r → stepFrame m r.1 0

def PMoveChainLoop (fuel : Nat) : Prop :=
  ∀ m g pc gg am r, msum m < m.resizeThreshold →
    Map.moveChainLoop fuel m g pc gg am = some r → stepFrame m r.1 0

def PMoveGroup (fuel : Nat) : Prop :=
  ∀ m g r, msum m < m.resizeThreshold →
    Map.moveGroup fuel m g = some r → stepFrame m r 0

def PMoveGroupSlots (fuel : Nat) : Prop :=
  ∀ m g bs off r, msum m < m.resizeThreshold →
    Map.moveGroupSlots fuel m g bs off = some r → stepFrame m r 0

theorem markCurHasDisplaced_fields (m : Map) (g pc : Nat) :
    (markCurHasDisplaced m g pc).old = m.old ∧
    (markCurHasDisplaced m g pc).resizeThreshold = m.resizeThreshold ∧
    (markCurHasDisplaced m g pc).hashF = m.hashF ∧
    (markCurHasDisplaced m g pc).seed = m.seed ∧
    (markCurHasDisplaced m g pc).disableResizing = m.disableResizing ∧
    (markCurHasDisplaced m g pc).current = m.current ∧
    (markCurHasDisplaced m g pc).elemCount = m.elemCount := by
  rcases ho : m.old with _ | old
  · simp [markCurHasDisplaced, ho]
  · simp only [markCurHasDisplaced, ho]
    split
    · simp [ho]
    · simp [ho]

theorem PMoveGroupSlots_succ (fuel : Nat) (ihset : PSet fuel)
    (ihmgs : PMoveGroupSlots fuel) : PMoveGroupSlots (fuel + 1) := by
  intro m g bs off r hlt hrun
  cases bs with
  | nil =>
    obtain rfl : m = r := Option.some.inj (show some m = some r from hrun)
    exact stepFrame_refl _ _ le_rfl
  | cons b rest =>
    simp only [Map.moveGroupSlots] at hrun
    rcases hm1 : (if isStored b then
        match m.old with
        | none => none
        | some old =>
          Map.set fuel m (slotAt old (g * 16 + off)).key (slotAt old (g * 16 + off)).value 0 false
      else some m) with _ | m1
    · rw [hm1] at hrun
      exact Option.noConfusion (show (none : Option Map) = some r from hrun)
    · rw [hm1] at hrun
      simp only [Option.some_bind] at hrun
      have h1 : stepFrame m m1 0 := by
        by_cases hb : isStored b
        · rw [if_pos hb] at hm1
          rcases ho : m.old with _ | old
        -- none: the Go code would nil-deref; excluded by success
          · rw [ho] at hm1; simp at hm1
          · rw [ho] at hm1
            exact ihset m _ _ 0 false m1 le_rfl hlt hm1
        · rw [if_neg hb] at hm1
          cases hm1
          exact stepFrame_refl _ _ le_rfl
      have hlt1 : msum m1 < m1.resizeThreshold := by
        obtain ⟨_, ht, _, _, _, hm⟩ := h1
        omega
      have h2 := ihmgs m1 g rest (off + 1) r hlt1 hrun
      simpa using stepFrame_trans h1 h2

theorem PMoveGroup_succ (fuel : Nat) (ihmgs : PMoveGroupSlots fuel) :
    PMoveGroup (fuel + 1) := by
  intro m g r hlt hrun
  rcases ho : m.old with _ | old
  · simp [Map.moveGroup, ho] at hrun
  · simp only [Map.moveGroup, ho] at hrun
    rcases hm1 : Map.moveGroupSlots fuel m g ((old.control.drop (g * 16)).take 16) 0
      with _ | m1
    · rw [hm1] at hrun
      exact Option.noConfusion (show (none : Option Map) = some r from hrun)
    · rw [hm1] at hrun
      simp only [Option.some_bind] at hrun
      have h1 := ihmgs m g _ 0 m1 hlt hm1
      -- the rest of the body only rewrites growStatus
      have h2 : stepFrame m1 r 0 := by
        rcases ho1 : m1.old with _ | old1
        · simp only [ho1] at hrun
          exact Option.noConfusion hrun
        · simp only [ho1] at hrun
          split at hrun <;>
            (cases hrun; exact ⟨Or.inl (by simp [ho1]), rfl, rfl, rfl, rfl, by simp [msum]⟩)
      simpa using stepFrame_trans h1 h2

theorem stepFrame_of_growStatusSet (m : Map) (i : Nat) (b : Nat) :
    stepFrame m { m with growStatus := m.growStatus.set i b } 0 :=
  ⟨Or.inl rfl, rfl, rfl, rfl, rfl, by simp [msum]⟩

theorem stepFrame_lt {m r : Map} {e : Int} (h : stepFrame m r e)
    (hlt : msum m < m.resizeThreshold) (he : e = 0) : msum r < r.resizeThreshold := by
  obtain ⟨_, ht, _, _, _, hm⟩ := h
  omega

theorem PMoveChainLoop_succ (fuel : Nat) (ihmg : PMoveGroup fuel)
    (ihmcl : PMoveChainLoop fuel) : PMoveChainLoop (fuel + 1) := by
  intro m g pc gg am r hlt hrun
  by_cases ham : am > 0
  · simp only [Map.moveChainLoop, if_pos ham] at hrun
    rcases hp : (if isEvacuated (statusAt m gg) = false then
        (Map.moveGroup fuel m gg).map fun m => (m, am - 1)
      else some (m, am)) with _ | p
    · rw [hp] at hrun
      exact Option.noConfusion (show (none : Option (Map × Int × Bool)) = some r from hrun)
    · rw [hp] at hrun
      simp only [Option.some_bind] at hrun
      have h1 : stepFrame m p.1 0 := by
        by_cases he : isEvacuated (statusAt m gg) = false
        · rw [if_pos he] at hp
          rcases Option.map_eq_some'.mp hp with ⟨m2, hm2, hpe⟩
          have := ihmg m gg m2 hlt hm2
          rw [← hpe]
          exact this
        · rw [if_neg he] at hp
          cases hp
          exact stepFrame_refl _ _ le_rfl
      rcases ho : p.1.old with _ | old
      · simp only [ho] at hrun
        exact Option.noConfusion hrun
      · simp only [ho] at hrun
        split at hrun
        · cases hrun
          rw [← ho]
          simpa using stepFrame_trans h1 (stepFrame_of_growStatusSet _ _ _)
        · have h2 := ihmcl p.1 g (pc + 1) ((gg + (pc + 1)) &&& old.groupMask) p.2 r
            (stepFrame_lt h1 hlt rfl) hrun
          simpa using stepFrame_trans h1 h2
  · simp only [Map.moveChainLoop, if_neg ham] at hrun
    cases hrun
    exact stepFrame_refl _ _ le_rfl

theorem PMoveChain_succ (fuel : Nat) (ihmcl : PMoveChainLoop fuel) :
    PMoveChain (fuel + 1) := by
  intro m g pc am r hlt hrun
  rcases ho : m.old with _ | old
  · simp [Map.moveChain, ho] at hrun
  · simp only [Map.moveChain, ho] at hrun
    exact ihmcl m g pc ((g + pc) &&& old.groupMask) am r hlt hrun

theorem PSweepLoop_succ (fuel : Nat) (ihmc : PMoveChain fuel)
    (ihsl : PSweepLoop fuel) : PSweepLoop (fuel + 1) := by
  intro m am sc r hlt hrun
  by_cases hcur : m.sweepCursor < sc
  · simp only [Map.sweepLoop, if_pos hcur] at hrun
    rcases hp : (if isChainEvacuated (statusAt m m.sweepCursor) = false then
        (Map.moveChain fuel m m.sweepCursor 0 am).map fun q => (q.1, q.2.1)
      else some (m, am)) with _ | p
    · rw [hp] at hrun
      exact Option.noConfusion (show (none : Option Map) = some r from hrun)
    · rw [hp] at hrun
      simp only [Option.some_bind] at hrun
      have h1 : stepFrame m p.1 0 := by
        by_cases he : isChainEvacuated (statusAt m m.sweepCursor) = false
        · rw [if_pos he] at hp
          rcases Option.map_eq_some'.mp hp with ⟨q, hq, hpe⟩
          have := ihmc m m.sweepCursor 0 am q hlt hq
          rw [← hpe]
          exact this
        · rw [if_neg he] at hp
          cases hp
          exact stepFrame_refl _ _ le_rfl
      have hlt1 := stepFrame_lt h1 hlt rfl
      split at hrun
      · have hadv : stepFrame p.1 { p.1 with sweepCursor := p.1.sweepCursor + 1 } 0 :=
          ⟨Or.inl rfl, rfl, rfl, rfl, rfl, by simp [msum]⟩
        have h2 := ihsl { p.1 with sweepCursor := p.1.sweepCursor + 1 } p.2 sc r
          (by simpa [msum] using hlt1) hrun
        simpa using stepFrame_trans h1 (stepFrame_trans hadv h2)
      · split at hrun
        · cases hrun
          simpa using h1
        · have h2 := ihsl p.1 p.2 sc r hlt1 hrun
          simpa using stepFrame_trans h1 h2
  · simp only [Map.sweepLoop, if_neg hcur] at hrun
    cases hrun
    exact stepFrame_refl _ _ le_rfl

/-- Frame of the final (sweep and completion-check) stage of
`moveGroups`. -/
theorem moveGroups_stage3_frame (fuel : Nat) (ihsw : PSweepLoop fuel)
    (p2 : Map × Int) (r : Map) (hlt : msum p2.1 < p2.1.resizeThreshold)
    (hrun : (match p2.1.old with
      | none => none
      | some oldNow =>
        (Map.sweepLoop fuel p2.1 p2.2
            (min (oldNow.control.length / 16) (p2.1.sweepCursor + 1000))).bind fun m =>
        match m.old with
        | none => none
        | some oldNow2 =>
          if m.sweepCursor ≥ oldNow2.control.length / 16 then
            some { m with old := none, growStatus := [], sweepCursor := 0 }
          else some m) = some r) :
    stepFrame p2.1 r 0 := by
  rcases ho : p2.1.old with _ | oldNow
  · rw [ho] at hrun
    exact Option.noConfusion hrun
  · simp only [ho] at hrun
    rcases hsw : Map.sweepLoop fuel p2.1 p2.2
        (min (oldNow.control.length / 16) (p2.1.sweepCursor + 1000)) with _ | m2
    · rw [hsw] at hrun
      exact Option.noConfusion (show (none : Option Map) = some r from hrun)
    · rw [hsw] at hrun
      simp only [Option.some_bind] at hrun
      have h1 := ihsw p2.1 p2.2 _ m2 hlt hsw
      have h2 : stepFrame m2 r 0 := by
        rcases ho2 : m2.old with _ | oldNow2
        · simp only [ho2] at hrun
          exact Option.noConfusion hrun
        · simp only [ho2] at hrun
          split at hrun <;> cases hrun
          · exact ⟨Or.inr rfl, rfl, rfl, rfl, rfl, by simp [msum]⟩
          · exact stepFrame_refl _ _ le_rfl
      simpa using stepFrame_trans h1 h2

theorem PMoveGroups_succ (fuel : Nat) (ihmg : PMoveGroup fuel)
    (ihmc : PMoveChain fuel) (ihsw : PSweepLoop fuel) : PMoveGroups (fuel + 1) := by
  intro m g k h r hlt hrun
  rcases ho : m.old with _ | old
  · simp [Map.moveGroups, ho] at hrun
  · simp only [Map.moveGroups, ho] at hrun
    rcases hp : (if isEvacuated (statusAt m (g &&& old.groupMask)) = false then
        (Map.moveGroup fuel m (g &&& old.groupMask)).map fun m => (m, (1 : Int))
      else some (m, (2 : Int))) with _ | p
    · rw [hp] at hrun
      exact Option.noConfusion (show (none : Option Map) = some r from hrun)
    · rw [hp] at hrun
      simp only [Option.some_bind] at hrun
      have h1 : stepFrame m p.1 0 := by
        by_cases he : isEvacuated (statusAt m (g &&& old.groupMask)) = false
        · rw [if_pos he] at hp
          rcases Option.map_eq_some'.mp hp with ⟨m2, hm2, hpe⟩
          have := ihmg m _ m2 hlt hm2
          rw [← hpe]
          exact this
        · rw [if_neg he] at hp
          cases hp
          exact stepFrame_refl _ _ le_rfl
      have hlt1 := stepFrame_lt h1 hlt rfl
      by_cases hce : isChainEvacuated (statusAt p.1 (g &&& old.groupMask)) = false
      · rw [if_pos hce] at hrun
        rcases hq : Map.moveChain fuel p.1 (g &&& old.groupMask) 1 p.2 with _ | q
        · rw [hq] at hrun
          exact Option.noConfusion (show (none : Option Map) = some r from hrun)
        · rw [hq] at hrun
          simp only [Option.some_bind] at hrun
          have h2 : stepFrame p.1 q.1 0 := ihmc p.1 _ 1 p.2 q hlt1 hq
          have hlt2 := stepFrame_lt h2 hlt1 rfl
          by_cases hcend : q.2.2 = false
          · rw [if_pos hcend] at hrun
            rcases hqo : q.1.old with _ | oldNow
            · rw [hqo] at hrun
              exact Option.noConfusion (show (none : Option Map) = some r from hrun)
            · simp only [hqo] at hrun
              rcases hfr : find oldNow k h fuel with _ | fr
              · rw [hfr] at hrun
                exact Option.noConfusion (show (none : Option Map) = some r from hrun)
              · rw [hfr] at hrun
                simp only [Option.some_bind] at hrun
                obtain ⟨kvOpt, dg, offv⟩ := fr
                cases kvOpt with
                | none =>
                  have h3 := moveGroups_stage3_frame fuel ihsw (q.1, q.2.1) r hlt2 hrun
                  simpa using stepFrame_trans h1 (stepFrame_trans h2 h3)
                | some kv0 =>
                  simp only at hrun
                  by_cases hdg : dg ≠ g &&& old.groupMask
                  · rw [if_pos hdg] at hrun
                    by_cases hev2 : isEvacuated (statusAt q.1 dg) = false
                    · rw [if_pos hev2] at hrun
                      rcases hmv : Map.moveGroup fuel q.1 dg with _ | m3
                      · rw [hmv] at hrun
                        exact Option.noConfusion (show (none : Option Map) = some r from hrun)
                      · rw [hmv] at hrun
                        simp only [Option.map_some', Option.some_bind] at hrun
                        have h3 : stepFrame q.1 m3 0 := ihmg q.1 dg m3 hlt2 hmv
                        have hlt3 := stepFrame_lt h3 hlt2 rfl
                        have h4 := moveGroups_stage3_frame fuel ihsw (m3, q.2.1 - 1) r hlt3 hrun
                        simpa using stepFrame_trans h1
                          (stepFrame_trans h2 (stepFrame_trans h3 h4))
                    · rw [if_neg hev2] at hrun
                      simp only [Option.some_bind] at hrun
                      have h3 := moveGroups_stage3_frame fuel ihsw (q.1, q.2.1) r hlt2 hrun
                      simpa using stepFrame_trans h1 (stepFrame_trans h2 h3)
                  · rw [if_neg hdg] at hrun
                    simp only [Option.some_bind] at hrun
                    have h3 := moveGroups_stage3_frame fuel ihsw (q.1, q.2.1) r hlt2 hrun
                    simpa using stepFrame_trans h1 (stepFrame_trans h2 h3)
          · rw [if_neg hcend] at hrun
            simp only [Option.some_bind] at hrun
            have h3 := moveGroups_stage3_frame fuel ihsw (q.1, q.2.1) r hlt2 hrun
            simpa using stepFrame_trans h1 (stepFrame_trans h2 h3)
      · rw [if_neg hce] at hrun
        simp only [Option.some_bind] at hrun
        have h3 := moveGroups_stage3_frame fuel ihsw p r hlt1 hrun
        simpa using stepFrame_trans h1 h3

theorem stepFrame_to_markCurHasDisplaced {m m' : Map} {g pc : Nat} {e : Int}
    (h : stepFrame m m' e) : stepFrame m (markCurHasDisplaced m' g pc) e := by
  obtain ⟨ho, ht, hh, hs, hd, hm⟩ := h
  obtain ⟨ho2, ht2, hh2, hs2, hd2, hc2, hec2⟩ := markCurHasDisplaced_fields m' g pc
  exact ⟨by rw [ho2]; exact ho, by rw [ht2, ht], by rw [hh2, hh], by rw [hs2, hs],
    by rw [hd2, hd], by simpa [msum, hec2, hc2] using hm⟩

theorem PSetLoop_succ (fuel : Nat) (ihsl : PSetLoop fuel) : PSetLoop (fuel + 1) := by
  intro m k v e h h2v g pc r he hlt hrun
  simp only [Map.setLoop] at hrun
  rcases hscan : scanH2 m.current k (g * 16)
      (bitIndices (MatchByte h2v (ctrlFrom m.current g)).1) with _ | off
  · simp only [hscan] at hrun
    by_cases hemp : matchEmpty (ctrlFrom m.current g) ≠ 0
    · rw [if_pos hemp] at hrun
      have hcond : ¬(m.elemCount + m.current.deleteCount ≥ m.resizeThreshold ∧
          m.disableResizing = false) := by
        intro hc
        have := hc.1
        simp only [msum] at hlt
        omega
      rw [if_neg hcond] at hrun
      rcases hgo : (if m.current.deleteCount = 0 ∨ pc = 0 then
          some (g, firstBit (matchEmpty (ctrlFrom m.current g)))
        else findFirstEmptyOrDeleted m.current h fuel) with _ | go
      · rw [hgo] at hrun
        exact Option.noConfusion (show (none : Option Map) = some r from hrun)
      · rw [hgo] at hrun
        simp only [Option.some_bind] at hrun
        by_cases hdel : ctrlAt m.current (go.1 * 16 + go.2) = deletedSentinel
        · rw [if_pos hdel] at hrun
          cases hrun
          refine stepFrame_to_markCurHasDisplaced ⟨Or.inl rfl, rfl, rfl, rfl, rfl, ?_⟩
          simp [msum, writeEntry]
          omega
        · rw [if_neg hdel] at hrun
          cases hrun
          refine stepFrame_to_markCurHasDisplaced ⟨Or.inl rfl, rfl, rfl, rfl, rfl, ?_⟩
          simp [msum, writeEntry]
          omega
    · rw [if_neg hemp] at hrun
      exact ihsl m k v e h h2v _ (pc + 1) r he hlt hrun
  · simp only [hscan] at hrun
    cases hrun
    refine stepFrame_to_markCurHasDisplaced ⟨Or.inl rfl, rfl, rfl, rfl, rfl, ?_⟩
    simp [msum, writeEntry]
    exact he

theorem PSet_succ (fuel : Nat) (ihmgr : PMoveGroups fuel) (ihsl : PSetLoop fuel) :
    PSet (fuel + 1) := by
  intro m k v e mv r he hlt hrun
  simp only [Map.set] at hrun
  rcases hm1 : (if (mv && m.old.isSome) = true then
      Map.moveGroups fuel m (mapHash m k &&& m.current.groupMask) k (mapHash m k)
    else some m) with _ | m1
  · rw [hm1] at hrun
    exact Option.noConfusion (show (none : Option Map) = some r from hrun)
  · rw [hm1] at hrun
    simp only [Option.some_bind] at hrun
    have h1 : stepFrame m m1 0 := by
      by_cases hc : (mv && m.old.isSome) = true
      · rw [if_pos hc] at hm1
        exact ihmgr m _ k _ m1 hlt hm1
      · rw [if_neg hc] at hm1
        cases hm1
        exact stepFrame_refl _ _ le_rfl
    have hlt1 := stepFrame_lt h1 hlt rfl
    have h2 := ihsl m1 k v e _ _ _ 0 r he hlt1 hrun
    simpa using stepFrame_trans h1 h2

/-- All eight frame statements hold at every fuel level. -/
theorem frame_all : ∀ fuel, PSet fuel ∧ PSetLoop fuel ∧ PMoveGroups fuel ∧
    PSweepLoop fuel ∧ PMoveChain fuel ∧ PMoveChainLoop fuel ∧ PMoveGroup fuel ∧
    PMoveGroupSlots fuel := by
  intro fuel
  induction fuel with
  | zero =>
    exact ⟨fun m k v e mv r _ _ hrun =>
        Option.noConfusion (show (none : Option Map) = some r from hrun),
      fun m k v e h h2v g pc r _ _ hrun =>
        Option.noConfusion (show (none : Option Map) = some r from hrun),
      fun m g k h r _ hrun =>
        Option.noConfusion (show (none : Option Map) = some r from hrun),
      fun m am sc r _ hrun =>
        Option.noConfusion (show (none : Option Map) = some r from hrun),
      fun m g pc am r _ hrun =>
        Option.noConfusion (show (none : Option (Map × Int × Bool)) = some r from hrun),
      fun m g pc gg am r _ hrun =>
        Option.noConfusion (show (none : Option (Map × Int × Bool)) = some r from hrun),
      fun m g r _ hrun =>
        Option.noConfusion (show (none : Option Map) = some r from hrun),
      fun m g bs off r _ hrun =>
        Option.noConfusion (show (none : Option Map) = some r from hrun)⟩
  | succ fuel ih =>
    obtain ⟨hset, hsl, hmgr, hsw, hmc, hmcl, hmg, hmgss⟩ := ih
    exact ⟨PSet_succ fuel hmgr hsl, PSetLoop_succ fuel hsl,
      PMoveGroups_succ fuel hmg hmc hsw, PSweepLoop_succ fuel hmc hsw,
      PMoveChain_succ fuel hmcl, PMoveChainLoop_succ fuel hmg hmcl,
      PMoveGroup_succ fuel hmgss, PMoveGroupSlots_succ fuel hset hmgss⟩

/-- Frame of a public `Set` call below the resize threshold. -/
theorem set_frame (fuel : Nat) (m : Map) (k v : Int) (r : Map)
    (hlt : msum m < m.resizeThreshold) (hrun : Map.Set fuel m k v = some r) :
    stepFrame m r 1 :=
  (frame_all fuel).1 m k v 1 true r (by omega) hlt hrun

/-- Frame of a public `Delete` call below the resize threshold. -/
theorem delete_frame (fuel : Nat) (m : Map) (k : Int) (r : Map)
    (hlt : msum m < m.resizeThreshold) (hrun : Map.Delete fuel m k = some r) :
    stepFrame m r 0 := by
  simp only [Map.Delete] at hrun
  rcases hm1 : (if m.old.isSome = true then
      Map.moveGroups fuel m (mapHash m k &&& m.current.groupMask) k (mapHash m k)
    else some m) with _ | m1
  · rw [hm1] at hrun
    exact Option.noConfusion (show (none : Option Map) = some r from hrun)
  · rw [hm1] at hrun
    simp only [Option.some_bind] at hrun
    have h1 : stepFrame m m1 0 := by
      by_cases hc : m.old.isSome = true
      · rw [if_pos hc] at hm1
        exact ((frame_all fuel).2.2.1) m _ k _ m1 hlt hm1
      · rw [if_neg hc] at hm1
        cases hm1
        exact stepFrame_refl _ _ le_rfl
    rcases hfr : find m1.current k (mapHash m k) fuel with _ | fr
    · rw [hfr] at hrun
      exact Option.noConfusion (show (none : Option Map) = some r from hrun)
    · rw [hfr] at hrun
      simp only [Option.some_bind] at hrun
      have h2 : stepFrame m1 r 0 := by
        obtain ⟨kvOpt, dg, offv⟩ := fr
        cases kvOpt with
        | none =>
          cases hrun
          exact stepFrame_refl _ _ le_rfl
        | some kv0 =>
          simp only at hrun
          by_cases hbm : (MatchByte emptySentinel (ctrlFrom m1.current dg)).1 = 0
          · rw [if_pos hbm] at hrun
            cases hrun
            exact ⟨Or.inl rfl, rfl, rfl, rfl, rfl, by simp [msum]⟩
          · rw [if_neg hbm] at hrun
            cases hrun
            exact ⟨Or.inl rfl, rfl, rfl, rfl, rfl, by simp [msum]⟩
      simpa using stepFrame_trans h1 h2

/-!
## Claim C6: the old table is never mutated during growth

The claim as stated fails for overfull mid-growth states: once
`elemCount + current.deleteCount` reaches `resizeThreshold`, a `Set`
finishes the current growth and immediately starts a *new* resize from
inside `setLoop`, which replaces `old` by the (tombstone-laden) current
table and doubles `resizeThreshold` — neither of which is in the claim's
list of mutable components.  Below the threshold the claim's intent
holds: `old` is only ever preserved verbatim or dropped on completion.
-/

/-- A fully-evacuated 32-slot old table (growth about to complete). -/
def c6old : fixedTable :=
  { control := List.replicate 32 emptySentinel,
    slots := List.replicate 32 ⟨0, 0⟩,
    groupMask := 1, h2Shift := 1, deleteCount := 0 }

/-- A 64-slot current table holding 63 tombstones (msum = 63 ≥ 52). -/
def c6cur : fixedTable :=
  { control := List.replicate 48 deletedSentinel ++
      (List.replicate 15 deletedSentinel ++ [emptySentinel]),
    slots := List.replicate 64 ⟨0, 0⟩,
    groupMask := 3, h2Shift := 2, deleteCount := 63 }

/-- An overfull mid-growth state: growth from `c6old` is in progress
(both old groups already chain-evacuated) while
`elemCount + current.deleteCount = 63` has passed the threshold 52. -/
def c6m : Map :=
  { current := c6cur, old := some c6old,
    growStatus := [3, 3] ++ List.replicate 30 0, sweepCursor := 0,
    elemCount := 0, resizeThreshold := 52, disableResizing := false,
    hashF := zeroHashF, seed := 0 }

set_option maxRecDepth 100000 in
set_option maxHeartbeats 1000000 in
/-- **C6 counterexample.**  In the mid-growth state `c6m` (old ≠ null), a
single `Set` replaces `old` by a different, 64-slot table and doubles
`resizeThreshold` from 52 to 104: the nested `startResize` fired from
`setLoop` swaps in a fresh growth, so `old`'s observed control bytes and
the resize threshold — neither in the claim's list of mutable
components — both change. -/
theorem c6_counterexample :
    c6m.old.isSome = true ∧ c6m.resizeThreshold = 52 ∧
    ((Map.Set 100 c6m 5 5).map fun r =>
        (r.resizeThreshold,
         decide (r.old = c6m.old),
         decide (r.old.map fixedTable.control = c6m.old.map fixedTable.control),
         r.old.map fun o => o.control.length))
      = some (104, false, false, some 64) := by
  constructor
  · rfl
  constructor
  · rfl
  decide

/-- **C6 (amended).**  Below the resize trigger
(`elemCount + current.deleteCount < resizeThreshold`, which holds in
every reachable state between operations), `Set` and `Delete` never
mutate the old table: afterwards `old` is either the identical table
value (every control byte and slot unchanged) or `none` (the growth
completed), and `resizeThreshold`, the hash function, the seed and the
`disableResizing` flag are unchanged; `Get` and `Range` return
observations only and by construction touch nothing. -/
theorem c6_old_immutable (fuel : Nat) (m : Map) (k v k2 : Int) (rs rd : Map)
    (hlt : msum m < m.resizeThreshold)
    (hs : Map.Set fuel m k v = some rs)
    (hd : Map.Delete fuel m k2 = some rd) :
    ((rs.old = m.old ∨ rs.old = none) ∧ rs.resizeThreshold = m.resizeThreshold ∧
      rs.hashF = m.hashF ∧ rs.seed = m.seed ∧
      rs.disableResizing = m.disableResizing) ∧
    ((rd.old = m.old ∨ rd.old = none) ∧ rd.resizeThreshold = m.resizeThreshold ∧
      rd.hashF = m.hashF ∧ rd.seed = m.seed ∧
      rd.disableResizing = m.disableResizing) := by
  obtain ⟨ho1, ht1, hh1, hs1, hd1, _⟩ := set_frame fuel m k v rs hlt hs
  obtain ⟨ho2, ht2, hh2, hs2, hd2, _⟩ := delete_frame fuel m k2 rd hlt hd
  exact ⟨⟨ho1, ht1, hh1, hs1, hd1⟩, ⟨ho2, ht2, hh2, hs2, hd2⟩⟩

/-- `Map.Set 30 c5m 2 9`: key 2 stored at position 0 of the empty
16-slot table. -/
def c6wSet : Map :=
  { current := { control := [2] ++ List.replicate 15 emptySentinel,
                 slots := [⟨2, 9⟩] ++ List.replicate 15 ⟨0, 0⟩,
                 groupMask := 0, h2Shift := 0, deleteCount := 0 }
    old := none, growStatus := [], sweepCursor := 0, elemCount := 1,
    resizeThreshold := 13, disableResizing := false, hashF := identityHash,
    seed := 1 }

/-- Witness for the amended C6 at the concrete map `c5m`. -/
theorem c6_old_immutable_witness :
    msum c5m < c5m.resizeThreshold ∧
    Map.Set 30 c5m 2 9 = some c6wSet ∧
    Map.Delete 30 c5m 7 = some c5m ∧
    (((c6wSet.old = c5m.old ∨ c6wSet.old = none) ∧
      c6wSet.resizeThreshold = c5m.resizeThreshold ∧
      c6wSet.hashF = c5m.hashF ∧ c6wSet.seed = c5m.seed ∧
      c6wSet.disableResizing = c5m.disableResizing) ∧
     ((c5m.old = c5m.old ∨ c5m.old = none) ∧
      c5m.resizeThreshold = c5m.resizeThreshold ∧
      c5m.hashF = c5m.hashF ∧ c5m.seed = c5m.seed ∧
      c5m.disableResizing = c5m.disableResizing)) :=
  ⟨by decide, rfl, rfl, c6_old_immutable 30 c5m 2 9 7 c6wSet c5m (by decide) rfl rfl⟩

/-!
## Claim C4 (amended): what completes the growth

`c4_counterexample` refuted the `T_old/16000` bound: per-operation
progress is limited by the two move credits, not by the 1000-group sweep
window.  The positive direction proved here: once every old group is
marked evacuated and chain-evacuated and the sweep cursor is within
1000 groups of the end, the *next* successful `Delete` (any key)
completes the growth — `old` becomes `none`, `growStatus` is cleared and
the sweep cursor resets.
-/

/-- When every group below `stopCursor` is already chain-evacuated, the
sweep loop walks the cursor straight to `stopCursor` and changes nothing
else. -/
theorem sweepLoop_chainEvac_complete (fuel : Nat) (m : Map) (am : Int)
    (sc : Nat) (r : Map)
    (hflags : ∀ g < sc, isChainEvacuated (statusAt m g) = true)
    (hcur : m.sweepCursor ≤ sc)
    (hrun : Map.sweepLoop fuel m am sc = some r) :
    r = { m with sweepCursor := sc } := by
  induction fuel generalizing m with
  | zero => exact Option.noConfusion (show (none : Option Map) = some r from hrun)
  | succ fuel ih =>
    simp only [Map.sweepLoop] at hrun
    by_cases hc : m.sweepCursor < sc
    · rw [if_pos hc] at hrun
      rw [if_neg (by simp [hflags m.sweepCursor hc])] at hrun
      simp only [Option.some_bind] at hrun
      rw [if_pos (hflags m.sweepCursor hc)] at hrun
      have := ih { m with sweepCursor := m.sweepCursor + 1 }
        (by intro g hg; simpa [statusAt] using hflags g hg) hc hrun
      rw [this]
    · rw [if_neg hc] at hrun
      cases hrun
      have hsc : r.sweepCursor = sc := le_antisymm hcur (le_of_not_lt hc)
      rw [← hsc]

/-- `moveGroups` on a fully chain-evacuated growth completes it. -/
theorem moveGroups_complete (fuel : Nat) (m : Map) (g : Nat) (k : Int)
    (h : Nat) (old : fixedTable) (r : Map)
    (ho : m.old = some old)
    (hmask : old.groupMask + 1 = old.control.length / 16)
    (hflags : ∀ gr < old.control.length / 16,
      isEvacuated (statusAt m gr) = true ∧ isChainEvacuated (statusAt m gr) = true)
    (hcur : m.sweepCursor ≤ old.control.length / 16)
    (hwin : old.control.length / 16 ≤ m.sweepCursor + 1000)
    (hrun : Map.moveGroups fuel m g k h = some r) :
    r.old = none ∧ r.growStatus = [] ∧ r.sweepCursor = 0 := by
  cases fuel with
  | zero => exact Option.noConfusion (show (none : Option Map) = some r from hrun)
  | succ fuel =>
    simp only [Map.moveGroups, ho] at hrun
    have hn : g &&& old.groupMask < old.control.length / 16 := by
      have := Nat.and_le_right (n := g) (m := old.groupMask)
      omega
    rw [if_neg (by simp [(hflags _ hn).1])] at hrun
    simp only [Option.some_bind] at hrun
    rw [if_neg (by simp [(hflags _ hn).2])] at hrun
    simp only [Option.some_bind, ho] at hrun
    have hmin : min (old.control.length / 16) (m.sweepCursor + 1000) =
        old.control.length / 16 := Nat.min_eq_left hwin
    rw [hmin] at hrun
    rcases hsw : Map.sweepLoop fuel m 2 (old.control.length / 16) with _ | m2
    · rw [hsw] at hrun
      exact Option.noConfusion (show (none : Option Map) = some r from hrun)
    · rw [hsw] at hrun
      simp only [Option.some_bind] at hrun
      have hm2 := sweepLoop_chainEvac_complete fuel m 2 (old.control.length / 16)
        m2 (fun gr hg => (hflags gr hg).2) hcur hsw
      subst hm2
      simp only [ho] at hrun
      rw [if_pos (le_refl (old.control.length / 16))] at hrun
      cases hrun
      exact ⟨rfl, rfl, rfl⟩

/-- **C4 (amended).**  The `T_old/16000` operation bound is false
(`c4_counterexample`); completion is credit-limited.  What does hold:
once every old group is evacuated and chain-evacuated and the sweep
cursor is within the 1000-group window of the end, the next successful
`Delete` — a single operation — completes the growth, leaving
`old = none`, `growStatus` empty and `sweepCursor = 0`. -/
theorem c4_sweep_completion (fuel : Nat) (m : Map) (k : Int)
    (old : fixedTable) (r : Map)
    (ho : m.old = some old)
    (hmask : old.groupMask + 1 = old.control.length / 16)
    (hflags : ∀ gr < old.control.length / 16,
      isEvacuated (statusAt m gr) = true ∧ isChainEvacuated (statusAt m gr) = true)
    (hcur : m.sweepCursor ≤ old.control.length / 16)
    (hwin : old.control.length / 16 ≤ m.sweepCursor + 1000)
    (hrun : Map.Delete fuel m k = some r) :
    r.old = none ∧ r.growStatus = [] ∧ r.sweepCursor = 0 := by
  simp only [Map.Delete] at hrun
  rw [if_pos (by simp [ho])] at hrun
  rcases hm1 : Map.moveGroups fuel m (mapHash m k &&& m.current.groupMask) k
      (mapHash m k) with _ | m1
  · rw [hm1] at hrun
    exact Option.noConfusion (show (none : Option Map) = some r from hrun)
  · rw [hm1] at hrun
    simp only [Option.some_bind] at hrun
    obtain ⟨ho1, hg1, hc1⟩ :=
      moveGroups_complete fuel m _ k _ old m1 ho hmask hflags hcur hwin hm1
    rcases hfr : find m1.current k (mapHash m k) fuel with _ | fr
    · rw [hfr] at hrun
      exact Option.noConfusion (show (none : Option Map) = some r from hrun)
    · rw [hfr] at hrun
      simp only [Option.some_bind] at hrun
      obtain ⟨kvOpt, dg, offv⟩ := fr
      cases kvOpt with
      | none =>
        cases hrun
        exact ⟨ho1, hg1, hc1⟩
      | some kv0 =>
        simp only at hrun
        by_cases hbm : (MatchByte emptySentinel (ctrlFrom m1.current dg)).1 = 0
        · rw [if_pos hbm] at hrun
          cases hrun
          exact ⟨ho1, hg1, hc1⟩
        · rw [if_neg hbm] at hrun
          cases hrun
          exact ⟨ho1, hg1, hc1⟩

/-- A mid-growth state whose single old group is already evacuated and
chain-evacuated: only the final sweep remains. -/
def c4w : Map :=
  { current := { control := List.replicate 32 emptySentinel,
                 slots := List.replicate 32 ⟨0, 0⟩,
                 groupMask := 1, h2Shift := 1, deleteCount := 0 }
    old := some { control := List.replicate 16 emptySentinel,
                  slots := List.replicate 16 ⟨0, 0⟩,
                  groupMask := 0, h2Shift := 0, deleteCount := 0 }
    growStatus := [3] ++ List.replicate 15 0, sweepCursor := 0,
    elemCount := 0, resizeThreshold := 26, disableResizing := false,
    hashF := identityHash, seed := 1 }

/-- The state after `Map.Delete 30 c4w 7`: the growth has completed. -/
def c4wDel : Map :=
  { current := { control := List.replicate 32 emptySentinel,
                 slots := List.replicate 32 ⟨0, 0⟩,
                 groupMask := 1, h2Shift := 1, deleteCount := 0 }
    old := none, growStatus := [], sweepCursor := 0,
    elemCount := 0, resizeThreshold := 26, disableResizing := false,
    hashF := identityHash, seed := 1 }

/-- Witness for the amended C4: one `Delete` completes the growth of
`c4w`. -/
theorem c4_sweep_completion_witness :
    (∃ o, c4w.old = some o) ∧
    Map.Delete 30 c4w 7 = some c4wDel ∧
    c4wDel.old = none ∧ c4wDel.growStatus = [] ∧ c4wDel.sweepCursor = 0 :=
  ⟨⟨_, rfl⟩, rfl,
    c4_sweep_completion 30 c4w 7
      { control := List.replicate 16 emptySentinel,
        slots := List.replicate 16 ⟨0, 0⟩,
        groupMask := 0, h2Shift := 0, deleteCount := 0 } c4wDel
      rfl (by decide) (by decide) (by decide) (by decide) rfl⟩

end Swisstable
